import Mathlib

/-!
# Note manager (`src/app.js`): shallow embedding and verified properties

The program is a single-page note manager.  Its state is the module-level
variables `todos`, `currentFilter`, `editingTodoId`, the values of the DOM
input controls it reads and writes, and the browser's `localStorage`.

Modelling conventions.

* A JavaScript string is a Lean `String` (a well-formed sequence of Unicode
  scalar values).  The built-ins `trim`, `includes`, `replace` with a
  one-character class, `JSON.stringify`, `JSON.parse` and
  `Date.prototype.toISOString` are written out below; `toLowerCase` (full
  Unicode case conversion) is a parameter of the functions that call it.
* The wall clock is an input: every `Date.now()` / `new Date()` evaluation
  is a parameter of the operation that performs it (milliseconds since the
  epoch).
* `confirm(...)` is an input (the user's answer); `alert(...)` and an uncaught
  exception are recorded in the `Completion` an operation returns next to
  the new state.
* `renderTodos` only writes to the view (`todosContainer`, `emptyState`),
  which no modelled operation reads back, so the view is not part of `State`.
* `localStorage` is an ideal key-value store (no quota).
* The collection in `State` is a list of notes.  `loadTodos`, which can
  assign any parsed value to `todos`, is given on the JSON value of that
  variable; `freshLoad` reads the value it leaves as a list of notes.
-/

namespace NoteApp

/-! ## Strings -/

/-- Code points of the ECMAScript `WhiteSpace` and `LineTerminator`
productions: the characters `String.prototype.trim` removes. -/
def isJsWhiteSpace (c : Char) : Bool :=
  let n := c.toNat
  n == 0x09 || n == 0x0A || n == 0x0B || n == 0x0C || n == 0x0D || n == 0x20 ||
  n == 0xA0 || n == 0x1680 || (0x2000 ≤ n && n ≤ 0x200A) || n == 0x2028 ||
  n == 0x2029 || n == 0x202F || n == 0x205F || n == 0x3000 || n == 0xFEFF

/-- Remove leading and trailing white space from a character list. -/
def trimChars (cs : List Char) : List Char :=
  ((cs.dropWhile isJsWhiteSpace).reverse.dropWhile isJsWhiteSpace).reverse

/-- `String.prototype.trim`. -/
def jsTrim (s : String) : String := ⟨trimChars s.data⟩

/-- Substring search on character lists: `t` occurs in `s` at some index. -/
def includesChars (s t : List Char) : Bool :=
  s.tails.any (fun u => t.isPrefixOf u)

/-- `String.prototype.includes` (with the default start position 0). -/
def jsIncludes (s t : String) : Bool := includesChars s.data t.data

/-- Truthiness of a JavaScript string: every string but the empty one. -/
def truthy (s : String) : Bool := s.data != []

/-- The quotation mark U+0022. -/
abbrev dquote : Char := Char.ofNat 34
/-- The apostrophe U+0027. -/
abbrev squote : Char := Char.ofNat 39
/-- The reverse solidus U+005C. -/
abbrev backslash : Char := Char.ofNat 92
/-- The left curly bracket U+007B. -/
abbrev lbrace : Char := Char.ofNat 123
/-- The right curly bracket U+007D. -/
abbrev rbrace : Char := Char.ofNat 125

/-! ## Numbers and dates -/

/-- The character of a decimal digit `d < 10`. -/
def digitChar (d : Nat) : Char := Char.ofNat (48 + d)

/-- Digits of `n`, most significant first, pushed in front of `acc`;
`fuel` bounds the number of digits produced. -/
def decimalAux : Nat → Nat → List Char → List Char
  | 0, _, acc => acc
  | fuel + 1, n, acc =>
    if n / 10 = 0 then digitChar (n % 10) :: acc
    else decimalAux fuel (n / 10) (digitChar (n % 10) :: acc)

/-- `Number.prototype.toString` on a non-negative integer below `1e21`
(every `Date.now()` value is one): the decimal numeral. -/
def decimalChars (n : Nat) : List Char := decimalAux (n + 1) n []

/-- The decimal numeral of `n`, left-padded with zeros to `width` characters. -/
def padZero (width n : Nat) : List Char :=
  List.replicate (width - (decimalChars n).length) '0' ++ decimalChars n

/-- Year, month (1..12) and day (1..31) of the proleptic Gregorian calendar
for a day number counted from 1970-01-01. -/
def civilFromDays (days : Nat) : Nat × Nat × Nat :=
  let z := days + 719468
  let era := z / 146097
  let doe := z % 146097
  let yoe := (doe - doe / 1460 + doe / 36524 - doe / 146096) / 365
  let doy := doe - (365 * yoe + yoe / 4 - yoe / 100)
  let mp := (5 * doy + 2) / 153
  let d := doy - (153 * mp + 2) / 5 + 1
  let m := if mp < 10 then mp + 3 else mp - 9
  let y := yoe + era * 400 + (if m ≤ 2 then 1 else 0)
  (y, m, d)

/-- The year of the era (counted from 1 March) that `civilFromDays` computes
for a day of the era. -/
def yoeOf (doe : Nat) : Nat := (doe - doe / 1460 + doe / 36524 - doe / 146096) / 365

/-- The first day of a year of the era, as `civilFromDays` counts it. -/
def yearStart (y : Nat) : Nat := 365 * y + y / 4 - y / 100

/-- `new Date(t).toISOString()` for a time value `t` in milliseconds, from
the epoch up to the largest time value `8.64e15`: `YYYY-MM-DDTHH:mm:ss.sssZ`,
the year written `+YYYYYY` beyond 9999. -/
def toISOString (t : Nat) : String :=
  let (y, m, d) := civilFromDays (t / 86400000)
  let year := if y ≤ 9999 then padZero 4 y else '+' :: padZero 6 y
  ⟨year ++ '-' :: padZero 2 m ++ '-' :: padZero 2 d ++ 'T' :: padZero 2 (t / 3600000 % 24) ++
    ':' :: padZero 2 (t / 60000 % 60) ++ ':' :: padZero 2 (t / 1000 % 60) ++
    '.' :: padZero 3 (t % 1000) ++ ['Z']⟩

/-! ## Data model and program state -/

/-- A note object as `createTodo` builds it: `id` is a `Date.now()` reading
(an integer, below `2^53`), `createdAt` and `updatedAt` hold the strings
`toISOString` returns. -/
structure Note where
  id : Nat
  title : String
  content : String
  category : String
  completed : Bool
  createdAt : String
  updatedAt : String
deriving DecidableEq, Repr

/-- The browser's `localStorage`: an association list from keys to values. -/
abbrev Storage := List (String × String)

/-- `localStorage.getItem` (`none` is JavaScript's `null`). -/
def getItem (ls : Storage) (key : String) : Option String :=
  match ls with
  | [] => none
  | (k, v) :: rest => if k = key then some v else getItem rest key

/-- `localStorage.setItem`: overwrite the entry for `key`, or add one. -/
def setItem (ls : Storage) (key value : String) : Storage :=
  match ls with
  | [] => [(key, value)]
  | (k, v) :: rest => if k = key then (k, value) :: rest else (k, v) :: setItem rest key value

/-- The mutable state the modelled operations read and write. -/
structure State where
  /-- The module variable `todos`. -/
  todos : List Note
  /-- The module variable `currentFilter`. -/
  currentFilter : String
  /-- The module variable `editingTodoId` (`none` is `null`). -/
  editingTodoId : Option Nat
  /-- Value of `todoTitleInput`. -/
  todoTitle : String
  /-- Value of `todoContentInput`. -/
  todoContent : String
  /-- Value of `todoCategorySelect`. -/
  todoCategory : String
  /-- Value of `searchInput`. -/
  searchInput : String
  /-- Value of `editTitleInput`. -/
  editTitle : String
  /-- Value of `editContentInput`. -/
  editContent : String
  /-- Value of `editCategorySelect`. -/
  editCategory : String
  /-- Whether `editModal` carries the class `active`. -/
  editModalActive : Bool
  /-- The browser's `localStorage`. -/
  localStorage : Storage
deriving DecidableEq, Repr

/-- The state at script load: `todos = []`, `currentFilter = 'all'`,
`editingTodoId = null`, empty inputs, over a given `localStorage`. -/
def initialState (ls : Storage) : State :=
  { todos := [], currentFilter := "all", editingTodoId := none,
    todoTitle := "", todoContent := "", todoCategory := "personal",
    searchInput := "", editTitle := "", editContent := "",
    editCategory := "personal", editModalActive := false, localStorage := ls }

/-- How a call ends, next to the state it leaves. -/
inductive Completion where
  /-- The function returned without showing a dialog. -/
  | normal
  /-- The function showed `alert(message)` and returned. -/
  | alerted (message : String)
  /-- An uncaught `SyntaxError` left the function. -/
  | threwSyntaxError
  /-- The call is not described by this embedding: the recursion bound of
  the embedded parser was reached (`jsonParse_ne_outOfFuel`: it never is),
  or the value is read as a collection of notes and is not one. -/
  | unmodelled
deriving DecidableEq, Repr

/-! ## Serialisation (`JSON.stringify`) -/

/-- The character of a hexadecimal digit `d < 16`, in lower case. -/
def hexDigit (d : Nat) : Char :=
  if d < 10 then Char.ofNat (48 + d) else Char.ofNat (87 + d)

/-- The escape of one character in `QuoteJSONString`. -/
def quoteJSONChar (c : Char) : List Char :=
  if c = dquote then [backslash, dquote]
  else if c = backslash then [backslash, backslash]
  else if c.toNat = 8 then [backslash, 'b']
  else if c.toNat = 9 then [backslash, 't']
  else if c.toNat = 10 then [backslash, 'n']
  else if c.toNat = 12 then [backslash, 'f']
  else if c.toNat = 13 then [backslash, 'r']
  else if c.toNat < 32 then
    [backslash, 'u', '0', '0', hexDigit (c.toNat / 16), hexDigit (c.toNat % 16)]
  else [c]

/-- `QuoteJSONString`: the JSON string literal for a string. -/
def quoteJSONString (s : String) : List Char :=
  dquote :: s.data.flatMap quoteJSONChar ++ [dquote]

/-- A member `"key":value` of a serialised object. -/
def jsonMember (key : String) (value : List Char) : List Char :=
  quoteJSONString key ++ ':' :: value

/-- `JSON.stringify` of a note object: its properties in creation order. -/
def stringifyNote (n : Note) : List Char :=
  lbrace :: jsonMember "id" (decimalChars n.id) ++
    ',' :: jsonMember "title" (quoteJSONString n.title) ++
    ',' :: jsonMember "content" (quoteJSONString n.content) ++
    ',' :: jsonMember "category" (quoteJSONString n.category) ++
    ',' :: jsonMember "completed" (if n.completed then "true".data else "false".data) ++
    ',' :: jsonMember "createdAt" (quoteJSONString n.createdAt) ++
    ',' :: jsonMember "updatedAt" (quoteJSONString n.updatedAt) ++ [rbrace]

/-- The elements of a serialised array, separated by commas. -/
def stringifyElements : List Note → List Char
  | [] => []
  | [n] => stringifyNote n
  | n :: rest => stringifyNote n ++ ',' :: stringifyElements rest

/-- `JSON.stringify(todos)` for an array of note objects. -/
def stringifyTodos (todos : List Note) : String :=
  ⟨'[' :: stringifyElements todos ++ [']']⟩

/-! ## Deserialisation (`JSON.parse`) -/

/-- A parsed JSON value.  A number keeps its numeral: its Number value is
only read off for the integer numerals a note id is written with.  A string
is its list of code points; a code point in the surrogate range stands for a
lone surrogate, which an escape can put into a JavaScript string. -/
inductive Json where
  | null
  | bool (b : Bool)
  | num (numeral : List Char)
  | str (s : List Nat)
  | arr (items : List Json)
  | obj (members : List (List Nat × Json))

/-- The code points of a string. -/
def codePoints (s : String) : List Nat := s.data.map Char.toNat

/-- Why the embedded parser stopped without a value. -/
inductive ParseError where
  /-- The text is not JSON: `JSON.parse` throws a `SyntaxError`. -/
  | syntaxError
  /-- The recursion bound was reached. -/
  | outOfFuel
deriving DecidableEq, Repr

/-- JSON white space: tab, line feed, carriage return, space. -/
def isJsonWs (c : Char) : Bool :=
  c.toNat == 9 || c.toNat == 10 || c.toNat == 13 || c.toNat == 32

/-- Skip JSON white space. -/
def skipWs (cs : List Char) : List Char := cs.dropWhile isJsonWs

/-- Whether a character is a decimal digit. -/
def isDigit (c : Char) : Bool := 48 ≤ c.toNat && c.toNat ≤ 57

/-- The value of a hexadecimal digit, in either case. -/
def hexVal (c : Char) : Option Nat :=
  let n := c.toNat
  if 48 ≤ n ∧ n ≤ 57 then some (n - 48)
  else if 97 ≤ n ∧ n ≤ 102 then some (n - 87)
  else if 65 ≤ n ∧ n ≤ 70 then some (n - 55)
  else none

/-- Whether a code unit is a high surrogate. -/
def isHighSurrogate (v : Nat) : Bool := 0xD800 ≤ v && v ≤ 0xDBFF

/-- Whether a code unit is a low surrogate. -/
def isLowSurrogate (v : Nat) : Bool := 0xDC00 ≤ v && v ≤ 0xDFFF

/-- Append the code unit `v` of a `\u` escape to the decoded string `acc`
(last code point first): when the unit before it is a high surrogate read
from an escape (`pending`) and `v` is a low surrogate, the two form one
code point. -/
def pushUnit (pending : Bool) (v : Nat) (acc : List Nat) : List Nat :=
  match pending, acc with
  | true, hi :: acc1 =>
    if isLowSurrogate v then (0x10000 + (hi - 0xD800) * 0x400 + (v - 0xDC00)) :: acc1
    else v :: acc
  | _, _ => v :: acc

/-- Where the reader of a JSON string stands.  `pending` tells that the code
point read last is a high surrogate written as an escape, which a following
escaped low surrogate completes. -/
inductive StringState where
  /-- Between characters. -/
  | plain (pending : Bool)
  /-- After a reverse solidus. -/
  | escape (pending : Bool)
  /-- Inside the four hexadecimal digits of a `\u` escape: `count` digits
  read so far, of value `value`. -/
  | hex (pending : Bool) (count value : Nat)
deriving DecidableEq, Repr

/-- The characters of a JSON string after its opening quotation mark, up to
and including the closing one; `acc` holds the decoded code points so far,
last first.  Returns the decoded string and the rest of the input. -/
def parseStringBody :
    List Char → StringState → List Nat → Except ParseError (List Nat × List Char)
  | [], _, _ => .error .syntaxError
  | c :: cs, .plain pending, acc =>
    if c = dquote then .ok (acc.reverse, cs)
    else if c = backslash then parseStringBody cs (.escape pending) acc
    else if c.toNat < 32 then .error .syntaxError
    else parseStringBody cs (.plain false) (c.toNat :: acc)
  | c :: cs, .escape pending, acc =>
    if c = dquote then parseStringBody cs (.plain false) (34 :: acc)
    else if c = backslash then parseStringBody cs (.plain false) (92 :: acc)
    else if c = '/' then parseStringBody cs (.plain false) (47 :: acc)
    else if c = 'b' then parseStringBody cs (.plain false) (8 :: acc)
    else if c = 'f' then parseStringBody cs (.plain false) (12 :: acc)
    else if c = 'n' then parseStringBody cs (.plain false) (10 :: acc)
    else if c = 'r' then parseStringBody cs (.plain false) (13 :: acc)
    else if c = 't' then parseStringBody cs (.plain false) (9 :: acc)
    else if c = 'u' then parseStringBody cs (.hex pending 0 0) acc
    else .error .syntaxError
  | c :: cs, .hex pending count value, acc =>
    match hexVal c with
    | none => .error .syntaxError
    | some d =>
      if count < 3 then parseStringBody cs (.hex pending (count + 1) (value * 16 + d)) acc
      else
        parseStringBody cs (.plain (isHighSurrogate (value * 16 + d)))
          (pushUnit pending (value * 16 + d) acc)

/-- One or more decimal digits at the head of the input. -/
def parseDigits (cs : List Char) : Except ParseError (List Char × List Char) :=
  if cs.takeWhile isDigit = [] then .error .syntaxError
  else .ok (cs.takeWhile isDigit, cs.dropWhile isDigit)

/-- The integer part of a JSON number: `0`, or a digit 1..9 and more digits. -/
def parseInt (cs : List Char) : Except ParseError (List Char × List Char) :=
  match cs with
  | [] => .error .syntaxError
  | c :: rest =>
    if c = '0' then .ok (['0'], rest)
    else if isDigit c then .ok (c :: rest.takeWhile isDigit, rest.dropWhile isDigit)
    else .error .syntaxError

/-- The optional fraction of a JSON number. -/
def parseFrac (cs : List Char) : Except ParseError (List Char × List Char) :=
  match cs with
  | [] => .ok ([], [])
  | c :: rest =>
    if c = '.' then
      match parseDigits rest with
      | .ok (ds, rest1) => .ok ('.' :: ds, rest1)
      | .error e => .error e
    else .ok ([], cs)

/-- The optional exponent of a JSON number. -/
def parseExp (cs : List Char) : Except ParseError (List Char × List Char) :=
  match cs with
  | [] => .ok ([], [])
  | c :: rest =>
    if c = 'e' ∨ c = 'E' then
      match rest with
      | [] => .error .syntaxError
      | s :: rest1 =>
        if s = '+' ∨ s = '-' then
          match parseDigits rest1 with
          | .ok (ds, rest2) => .ok (c :: s :: ds, rest2)
          | .error e => .error e
        else
          match parseDigits rest with
          | .ok (ds, rest2) => .ok (c :: ds, rest2)
          | .error e => .error e
    else .ok ([], cs)

/-- A JSON number at the head of the input: its numeral and what follows. -/
def parseNumber (cs : List Char) : Except ParseError (List Char × List Char) :=
  let (sign, cs0) :=
    match cs with
    | [] => (([] : List Char), ([] : List Char))
    | c :: rest => if c = '-' then (['-'], rest) else ([], cs)
  match parseInt cs0 with
  | .error e => .error e
  | .ok (int, cs1) =>
    match parseFrac cs1 with
    | .error e => .error e
    | .ok (frac, cs2) =>
      match parseExp cs2 with
      | .error e => .error e
      | .ok (exp, cs3) => .ok (sign ++ int ++ frac ++ exp, cs3)

/-- Consume the characters `word` from the head of the input. -/
def expectWord (word : List Char) (cs : List Char) : Except ParseError (List Char) :=
  if word.isPrefixOf cs then .ok (cs.drop word.length) else .error .syntaxError

mutual
/-- A JSON value at the head of the input (white space already skipped). -/
def parseValue : Nat → List Char → Except ParseError (Json × List Char)
  | 0, _ => .error .outOfFuel
  | fuel + 1, cs =>
    match cs with
    | [] => .error .syntaxError
    | c :: rest =>
      if c = lbrace then
        match skipWs rest with
        | [] => .error .syntaxError
        | d :: rest1 =>
          if d = rbrace then .ok (Json.obj [], rest1)
          else
            match parseMembers fuel (d :: rest1) [] with
            | .ok (ms, rest2) => .ok (Json.obj ms, rest2)
            | .error e => .error e
      else if c = '[' then
        match skipWs rest with
        | [] => .error .syntaxError
        | d :: rest1 =>
          if d = ']' then .ok (Json.arr [], rest1)
          else
            match parseElements fuel (d :: rest1) [] with
            | .ok (items, rest2) => .ok (Json.arr items, rest2)
            | .error e => .error e
      else if c = dquote then
        match parseStringBody rest (.plain false) [] with
        | .ok (s, rest1) => .ok (Json.str s, rest1)
        | .error e => .error e
      else if c = 't' then
        match expectWord "true".data cs with
        | .ok rest1 => .ok (Json.bool true, rest1)
        | .error e => .error e
      else if c = 'f' then
        match expectWord "false".data cs with
        | .ok rest1 => .ok (Json.bool false, rest1)
        | .error e => .error e
      else if c = 'n' then
        match expectWord "null".data cs with
        | .ok rest1 => .ok (Json.null, rest1)
        | .error e => .error e
      else
        match parseNumber cs with
        | .ok (numeral, rest1) => .ok (Json.num numeral, rest1)
        | .error e => .error e
/-- The elements of an array after `[` or a comma, up to and including `]`;
`acc` holds the elements read so far, last first. -/
def parseElements : Nat → List Char → List Json → Except ParseError (List Json × List Char)
  | 0, _, _ => .error .outOfFuel
  | fuel + 1, cs, acc =>
    match parseValue fuel (skipWs cs) with
    | .error e => .error e
    | .ok (v, rest) =>
      match skipWs rest with
      | [] => .error .syntaxError
      | d :: rest1 =>
        if d = ',' then parseElements fuel rest1 (v :: acc)
        else if d = ']' then .ok ((v :: acc).reverse, rest1)
        else .error .syntaxError
/-- The members of an object after its opening bracket or a comma, up to
and including the closing bracket; `acc` holds the members read so far,
last first. -/
def parseMembers : Nat → List Char → List (List Nat × Json) →
    Except ParseError (List (List Nat × Json) × List Char)
  | 0, _, _ => .error .outOfFuel
  | fuel + 1, cs, acc =>
    match skipWs cs with
    | [] => .error .syntaxError
    | q :: rest =>
      if q = dquote then
        match parseStringBody rest (.plain false) [] with
        | .error e => .error e
        | .ok (key, rest1) =>
          match skipWs rest1 with
          | [] => .error .syntaxError
          | colon :: rest2 =>
            if colon = ':' then
              match parseValue fuel (skipWs rest2) with
              | .error e => .error e
              | .ok (v, rest3) =>
                match skipWs rest3 with
                | [] => .error .syntaxError
                | d :: rest4 =>
                  if d = ',' then parseMembers fuel rest4 ((key, v) :: acc)
                  else if d = rbrace then .ok (((key, v) :: acc).reverse, rest4)
                  else .error .syntaxError
            else .error .syntaxError
      else .error .syntaxError
end

/-- `JSON.parse(text)`: one value, white space allowed around it.  Every
nested value starts at least one character further into the text and the
array and object loops take one step per value, so twice the length of the
text bounds the depth of the recursion (`jsonParse_ne_outOfFuel`). -/
def jsonParse (text : String) : Except ParseError Json :=
  match parseValue (2 * text.data.length + 2) (skipWs text.data) with
  | .error e => .error e
  | .ok (v, rest) => if skipWs rest = [] then .ok v else .error .syntaxError

/-- A text is JSON when `JSON.parse` returns a value for it and does not
throw. -/
def IsJson (text : String) : Prop := ∃ v, jsonParse text = .ok v

/-- A parser result that is not the recursion bound and, when a value,
leaves at most `n` characters of input. -/
def WithinBound {α : Type} (n : Nat) (r : Except ParseError (α × List Char)) : Prop :=
  r ≠ .error .outOfFuel ∧ ∀ a rest, r = .ok (a, rest) → rest.length ≤ n

/-- The value of a property: the last member with that key. -/
def lookupMember (key : List Nat) : List (List Nat × Json) → Option Json
  | [] => none
  | (k, v) :: rest =>
    match lookupMember key rest with
    | some w => some w
    | none => if k = key then some v else none

/-- The Number value of a numeral made of decimal digits. -/
def natOfDigits (cs : List Char) : Nat :=
  cs.foldl (fun a c => 10 * a + (c.toNat - 48)) 0

/-- Reading of a property as a note id: a non-negative integer numeral
(read exactly; a Number is exact below `2^53`, which covers every
`Date.now()` reading). -/
def asNat : Json → Option Nat
  | Json.num numeral => if numeral.all isDigit then some (natOfDigits numeral) else none
  | _ => none

/-- Whether a code point is a Unicode scalar value, not a lone surrogate. -/
def isScalar (v : Nat) : Bool := v < 0xD800 || (0xDFFF < v && v < 0x110000)

/-- Reading of a property as a string: a string without lone surrogates. -/
def asString : Json → Option String
  | Json.str s => if s.all isScalar then some ⟨s.map Char.ofNat⟩ else none
  | _ => none

/-- Reading of a property as a boolean. -/
def asBool : Json → Option Bool
  | Json.bool b => some b
  | _ => none

/-- Reading of a parsed object as a note: the seven properties the program
uses, each of the type `createTodo` gives it. -/
def asNote : Json → Option Note
  | Json.obj ms => do
    let id ← (lookupMember (codePoints "id") ms).bind asNat
    let title ← (lookupMember (codePoints "title") ms).bind asString
    let content ← (lookupMember (codePoints "content") ms).bind asString
    let category ← (lookupMember (codePoints "category") ms).bind asString
    let completed ← (lookupMember (codePoints "completed") ms).bind asBool
    let createdAt ← (lookupMember (codePoints "createdAt") ms).bind asString
    let updatedAt ← (lookupMember (codePoints "updatedAt") ms).bind asString
    pure { id, title, content, category, completed, createdAt, updatedAt }
  | _ => none

/-- Reading of the elements of a parsed array as notes, all or none. -/
def asNoteList : List Json → Option (List Note)
  | [] => some []
  | j :: js =>
    match asNote j, asNoteList js with
    | some n, some ns => some (n :: ns)
    | _, _ => none

/-- Reading of a parsed value as the collection: an array of notes. -/
def asNotes : Json → Option (List Note)
  | Json.arr items => asNoteList items
  | _ => none

/-! ## Operations on the collection -/

/-- The function `loadTodos` of `src/app.js`.  The variable `todos` is
untyped and receives whatever `JSON.parse` returns, so the function is given
here on the JSON value `todos` holds: from the store and that value, the
value `todos` holds after the call and how the call ends.  `JSON.parse` is
not wrapped in a `try`, so its `SyntaxError` leaves the function, before
the assignment. -/
def loadTodos (ls : Storage) (todos : Json) : Json × Completion :=
  match getItem ls "todos" with
  | none => (todos, Completion.normal)
  | some savedTodos =>
    if truthy savedTodos then
      match jsonParse savedTodos with
      | .ok v => (v, Completion.normal)
      | .error .syntaxError => (todos, Completion.threwSyntaxError)
      | .error .outOfFuel => (todos, Completion.unmodelled)
    else (todos, Completion.normal)

/-- The function `saveTodos` of `src/app.js`. -/
def saveTodos (st : State) : State :=
  { st with localStorage := setItem st.localStorage "todos" (stringifyTodos st.todos) }

/-- The function `createTodo` of `src/app.js`.  `now` is the value of
`Date.now()`, `created` and `updated` are the time values of the two
`new Date()` evaluations. -/
def createTodo (now created updated : Nat) (st : State) : State × Completion :=
  let title := jsTrim st.todoTitle
  let content := jsTrim st.todoContent
  let category := st.todoCategory
  if !truthy title && !truthy content then
    (st, Completion.alerted "Please enter a title or content for your note.")
  else
    let todo : Note :=
      { id := now
        title := if truthy title then title else "Untitled"
        content := content
        category := category
        completed := false
        createdAt := toISOString created
        updatedAt := toISOString updated }
    let st := { st with todos := todo :: st.todos }
    let st := saveTodos st
    ({ st with todoTitle := "", todoContent := "", todoCategory := "personal" },
      Completion.normal)

/-- Apply `f` to the first element satisfying `p` (the element that
`Array.prototype.find` returns, mutated in place). -/
def updateFirst (p : Note → Bool) (f : Note → Note) : List Note → List Note
  | [] => []
  | n :: rest => if p n then f n :: rest else n :: updateFirst p f rest

/-- The function `toggleComplete` of `src/app.js`; `now` is the time value
of `new Date()`. -/
def toggleComplete (id : Nat) (now : Nat) (st : State) : State × Completion :=
  match st.todos.find? (fun t => t.id == id) with
  | some _ =>
    let mutate : Note → Note := fun todo =>
      { todo with completed := !todo.completed, updatedAt := toISOString now }
    let st := { st with todos := updateFirst (fun t => t.id == id) mutate st.todos }
    (saveTodos st, Completion.normal)
  | none => (st, Completion.normal)

/-- The function `deleteTodo` of `src/app.js`; `confirmed` is the answer
to the `confirm` dialog. -/
def deleteTodo (id : Nat) (confirmed : Bool) (st : State) : State × Completion :=
  if confirmed then
    let st := { st with todos := st.todos.filter (fun todo => todo.id != id) }
    (saveTodos st, Completion.normal)
  else (st, Completion.normal)

/-- The function `openEditModal` of `src/app.js`. -/
def openEditModal (id : Nat) (st : State) : State :=
  match st.todos.find? (fun t => t.id == id) with
  | some todo =>
    { st with editingTodoId := some id, editTitle := todo.title, editContent := todo.content,
              editCategory := todo.category, editModalActive := true }
  | none => st

/-- The function `closeEditModal` of `src/app.js`. -/
def closeEditModal (st : State) : State :=
  { st with editingTodoId := none, editModalActive := false, editTitle := "",
            editContent := "" }

/-- The function `saveEdit` of `src/app.js`; `now` is the time value of
`new Date()`. -/
def saveEdit (now : Nat) (st : State) : State × Completion :=
  match st.editingTodoId with
  | none => (st, Completion.normal)
  | some id =>
    match st.todos.find? (fun t => t.id == id) with
    | some _ =>
      let title := jsTrim st.editTitle
      let mutate : Note → Note := fun todo =>
        { todo with
          title := if truthy title then title else "Untitled"
          content := jsTrim st.editContent
          category := st.editCategory
          updatedAt := toISOString now }
      let st := { st with todos := updateFirst (fun t => t.id == id) mutate st.todos }
      let st := saveTodos st
      (closeEditModal st, Completion.normal)
    | none => (st, Completion.normal)

/-! ## Escaping (`escapeHtml`) -/

/-- The object `map` of `escapeHtml`. -/
def escapeMap : List (Char × String) :=
  [('&', "&amp;"), ('<', "&lt;"), ('>', "&gt;"), (dquote, "&quot;"), (squote, "&#039;")]

/-- The replacement callback `m => map[m]` applied where the pattern
`/[&<>"']/g` matches one character, every other character being kept. -/
def escapeChar (c : Char) : List Char :=
  if c = '&' ∨ c = '<' ∨ c = '>' ∨ c = dquote ∨ c = squote then
    match escapeMap.lookup c with
    | some entity => entity.data
    | none => "undefined".data
  else [c]

/-- The function `escapeHtml` of `src/app.js`. -/
def escapeHtml (text : String) : String := ⟨text.data.flatMap escapeChar⟩

/-- Replacement of one character in the words of the specification. -/
def entityOf (c : Char) : List Char :=
  if c = '&' then "&amp;".data
  else if c = '<' then "&lt;".data
  else if c = '>' then "&gt;".data
  else if c = dquote then "&quot;".data
  else if c = squote then "&#039;".data
  else [c]

/-- The five entities `escapeHtml` produces. -/
def entities : List (List Char) :=
  ["&amp;".data, "&lt;".data, "&gt;".data, "&quot;".data, "&#039;".data]

/-! ## Filtering (`filterTodos`) -/

/-- The function `filterTodos` of `src/app.js`. -/
def filterTodos (toLowerCase : String → String) (st : State) : List Note :=
  let filtered := st.todos
  let filtered :=
    if st.currentFilter ≠ "all" then
      filtered.filter (fun todo => todo.category == st.currentFilter)
    else filtered
  let searchTerm := jsTrim (toLowerCase st.searchInput)
  let filtered :=
    if truthy searchTerm then
      filtered.filter (fun todo =>
        jsIncludes (toLowerCase todo.title) searchTerm ||
        jsIncludes (toLowerCase todo.content) searchTerm)
    else filtered
  filtered

/-- The specification's `query(categoryFilter, searchTerm)`: `filterTodos`
run with the category button and the search box holding the two arguments. -/
def query (toLowerCase : String → String) (categoryFilter searchTerm : String)
    (st : State) : List Note :=
  filterTodos toLowerCase { st with currentFilter := categoryFilter, searchInput := searchTerm }

/-- The user fills the three controls of the new-note form. -/
def fillForm (title content category : String) (st : State) : State :=
  { st with todoTitle := title, todoContent := content, todoCategory := category }

/-- One use of the new-note form: what the user entered and the three clock
readings `createTodo` takes. -/
structure CreateCall where
  title : String
  content : String
  category : String
  now : Nat
  created : Nat
  updated : Nat
deriving DecidableEq, Repr

/-- The specification's `create(title, content, category)`: the user fills
the form and `createTodo` runs. -/
def create (c : CreateCall) (st : State) : State × Completion :=
  createTodo c.now c.created c.updated (fillForm c.title c.content c.category st)

/-- The note a successful call puts in front of the collection. -/
def CreateCall.note (c : CreateCall) : Note :=
  { id := c.now
    title := if (jsTrim c.title).data = [] then "Untitled" else jsTrim c.title
    content := jsTrim c.content
    category := c.category
    completed := false
    createdAt := toISOString c.created
    updatedAt := toISOString c.updated }

/-- Whether a call passes the validation of `createTodo`. -/
def CreateCall.valid (c : CreateCall) : Prop :=
  (jsTrim c.title).data ≠ [] ∨ (jsTrim c.content).data ≠ []

instance (c : CreateCall) : Decidable c.valid := by
  unfold CreateCall.valid; infer_instance

/-- A sequence of `create` calls, first call first. -/
def runCreates : List CreateCall → State → State
  | [], st => st
  | c :: rest, st => runCreates rest (create c st).1

/-- The note `createTodo` builds from the form of `st` and its clock readings. -/
def newNote (now created updated : Nat) (st : State) : Note :=
  { id := now
    title := if (jsTrim st.todoTitle).data = [] then "Untitled" else jsTrim st.todoTitle
    content := jsTrim st.todoContent
    category := st.todoCategory
    completed := false
    createdAt := toISOString created
    updatedAt := toISOString updated }

/-- The `updatedAt` of the note `find` returns for `id`, if there is one. -/
def updatedAtOf (id : Nat) (st : State) : Option String :=
  (st.todos.find? (fun t => t.id == id)).map (·.updatedAt)

/-- A call signals an error when it does not simply return: it shows an
alert or lets an exception escape. -/
def signalsError (c : Completion) : Prop := c ≠ Completion.normal

instance (c : Completion) : Decidable (signalsError c) := by
  unfold signalsError; infer_instance

/-- Startup over a given store: `loadTodos` on the initial state, where
`todos` is the empty array, the value it leaves in `todos` read as a
collection of notes. -/
def freshLoad (ls : Storage) : State × Completion :=
  match loadTodos ls (Json.arr []) with
  | (v, completion) =>
    match asNotes v with
    | some todos => ({ initialState ls with todos := todos }, completion)
    | none => (initialState ls, Completion.unmodelled)

/-- The store reflects the collection: startup over the store of `st`
completes normally with the collection of `st`. -/
def Persisted (st : State) : Prop :=
  freshLoad st.localStorage =
    ({ initialState st.localStorage with todos := st.todos }, Completion.normal)

/-- Lower-casing of the ASCII letters, a stand-in for `toLowerCase` where a
concrete function is needed. -/
def asciiLower (s : String) : String := ⟨s.data.map Char.toLower⟩

/-- The value `JSON.parse` builds for a serialised note. -/
def noteJson (n : Note) : Json :=
  Json.obj
    [(codePoints "id", Json.num (decimalChars n.id)),
     (codePoints "title", Json.str (codePoints n.title)),
     (codePoints "content", Json.str (codePoints n.content)),
     (codePoints "category", Json.str (codePoints n.category)),
     (codePoints "completed", Json.bool n.completed),
     (codePoints "createdAt", Json.str (codePoints n.createdAt)),
     (codePoints "updatedAt", Json.str (codePoints n.updatedAt))]

/-- The query predicate in the words of the specification: the category
filter is "all" or equals the note's category, and the lower-cased, trimmed
search term is empty or occurs in the lower-cased title or content. -/
def matchesQuery (toLowerCase : String → String) (categoryFilter search : String)
    (n : Note) : Prop :=
  (categoryFilter = "all" ∨ n.category = categoryFilter) ∧
  ((jsTrim (toLowerCase search)).data = [] ∨
   (jsTrim (toLowerCase search)).data <:+: (toLowerCase n.title).data ∨
   (jsTrim (toLowerCase search)).data <:+: (toLowerCase n.content).data)

instance (toLowerCase : String → String) (categoryFilter search : String) (n : Note) :
    Decidable (matchesQuery toLowerCase categoryFilter search n) := by
  unfold matchesQuery; infer_instance

/-! ## Lemmas on strings -/

theorem includesChars_iff (s t : List Char) : includesChars s t = true ↔ t <:+: s := by
  unfold includesChars
  rw [List.any_eq_true, List.infix_iff_prefix_suffix]
  constructor
  · rintro ⟨u, hu, hp⟩
    exact ⟨u, List.isPrefixOf_iff_prefix.mp hp, (List.mem_tails _ _).mp hu⟩
  · rintro ⟨u, hp, hu⟩
    exact ⟨u, (List.mem_tails _ _).mpr hu, List.isPrefixOf_iff_prefix.mpr hp⟩

theorem jsIncludes_eq_decide (s t : String) :
    jsIncludes s t = decide (t.data <:+: s.data) := by
  rw [Bool.eq_iff_iff, decide_eq_true_iff]
  exact includesChars_iff _ _

theorem truthy_eq_false_iff (s : String) : truthy s = false ↔ s.data = [] := by
  unfold truthy; simp

theorem truthy_eq_true_iff (s : String) : truthy s = true ↔ s.data ≠ [] := by
  unfold truthy; simp

/-! ## Lemmas on `createTodo` -/

theorem createTodo_invalid (now created updated : Nat) (st : State)
    (ht : (jsTrim st.todoTitle).data = []) (hc : (jsTrim st.todoContent).data = []) :
    createTodo now created updated st =
      (st, Completion.alerted "Please enter a title or content for your note.") := by
  unfold createTodo
  simp [truthy, ht, hc]

theorem createTodo_valid (now created updated : Nat) (st : State)
    (h : (jsTrim st.todoTitle).data ≠ [] ∨ (jsTrim st.todoContent).data ≠ []) :
    createTodo now created updated st =
      ({ saveTodos { st with todos := newNote now created updated st :: st.todos } with
          todoTitle := "", todoContent := "", todoCategory := "personal" },
        Completion.normal) := by
  unfold createTodo
  have h1 : ¬ ((jsTrim st.todoTitle).data = [] ∧ (jsTrim st.todoContent).data = []) := by
    rintro ⟨a, b⟩; rcases h with h | h <;> contradiction
  by_cases ht : (jsTrim st.todoTitle).data = []
  · have hc : (jsTrim st.todoContent).data ≠ [] := fun hc => h1 ⟨ht, hc⟩
    simp [truthy, ht, hc, newNote, saveTodos]
  · simp [truthy, ht, newNote, saveTodos]

theorem create_valid (c : CreateCall) (st : State) (h : c.valid) :
    create c st =
      ({ saveTodos { fillForm c.title c.content c.category st with
            todos := c.note :: st.todos } with
          todoTitle := "", todoContent := "", todoCategory := "personal" },
        Completion.normal) := by
  unfold create
  rw [createTodo_valid _ _ _ _ (by simpa [fillForm, CreateCall.valid] using h)]
  rfl

theorem create_invalid (c : CreateCall) (st : State) (h : ¬ c.valid) :
    create c st = (fillForm c.title c.content c.category st,
      Completion.alerted "Please enter a title or content for your note.") := by
  unfold create
  have h' : (jsTrim c.title).data = [] ∧ (jsTrim c.content).data = [] := by
    unfold CreateCall.valid at h
    constructor
    · by_contra hh; exact h (Or.inl hh)
    · by_contra hh; exact h (Or.inr hh)
  exact createTodo_invalid _ _ _ _ h'.1 h'.2

theorem create_todos (c : CreateCall) (st : State) :
    (create c st).1.todos = if c.valid then c.note :: st.todos else st.todos := by
  by_cases h : c.valid
  · rw [create_valid c st h, if_pos h]; rfl
  · rw [create_invalid c st h, if_neg h]; rfl

theorem query_all_empty (toLowerCase : String → String) (hlower : toLowerCase "" = "")
    (st : State) : query toLowerCase "all" "" st = st.todos := by
  unfold query filterTodos
  simp [hlower, jsTrim, trimChars, truthy]

/-! ## Lemmas on `find`, `updateFirst` and `filter` -/

theorem find_none_of_unknown (id : Nat) (todos : List Note)
    (h : ∀ t ∈ todos, t.id ≠ id) : todos.find? (fun t => t.id == id) = none := by
  rw [List.find?_eq_none]
  intro t ht
  simpa using h t ht

theorem filter_unknown (id : Nat) (todos : List Note)
    (h : ∀ t ∈ todos, t.id ≠ id) : todos.filter (fun todo => todo.id != id) = todos := by
  rw [List.filter_eq_self]
  intro t ht
  simpa using h t ht

theorem find_updateFirst (id : Nat) (f : Note → Note) (hf : ∀ m, (f m).id = m.id)
    (todos : List Note) (n : Note) (h : todos.find? (fun t => t.id == id) = some n) :
    (updateFirst (fun t => t.id == id) f todos).find? (fun t => t.id == id) = some (f n) := by
  induction todos with
  | nil => simp at h
  | cons m rest ih =>
    by_cases hm : m.id = id
    · have h1 : (m.id == id) = true := by simpa using hm
      have h2 : ((f m).id == id) = true := by rw [hf]; exact h1
      simp only [List.find?_cons, h1, Option.some.injEq] at h
      subst h
      simp only [updateFirst, h1, ↓reduceIte, List.find?_cons, h2]
    · have h1 : (m.id == id) = false := by simpa using hm
      simp only [List.find?_cons, h1] at h
      simp only [updateFirst, h1, Bool.false_eq_true, ↓reduceIte, List.find?_cons]
      exact ih h

theorem updateFirst_updateFirst (id : Nat) (f g : Note → Note) (hf : ∀ m, (f m).id = m.id)
    (todos : List Note) :
    updateFirst (fun t => t.id == id) g (updateFirst (fun t => t.id == id) f todos) =
      updateFirst (fun t => t.id == id) (fun m => g (f m)) todos := by
  induction todos with
  | nil => rfl
  | cons m rest ih =>
    by_cases hm : m.id = id
    · have h1 : (m.id == id) = true := by simpa using hm
      have h2 : ((f m).id == id) = true := by rw [hf]; exact h1
      simp only [updateFirst, h1, ↓reduceIte, h2]
    · have h1 : (m.id == id) = false := by simpa using hm
      simp only [updateFirst, h1, Bool.false_eq_true, ↓reduceIte, ih]

theorem toggleComplete_found (id now : Nat) (st : State) (n : Note)
    (h : st.todos.find? (fun t => t.id == id) = some n) :
    toggleComplete id now st =
      (saveTodos { st with
          todos := updateFirst (fun t => t.id == id) (fun todo =>
            { todo with completed := !todo.completed, updatedAt := toISOString now })
            st.todos },
        Completion.normal) := by
  unfold toggleComplete
  rw [h]

/-! ## Lemmas on `escapeHtml` -/

theorem escapeChar_eq_entityOf (c : Char) : escapeChar c = entityOf c := by
  unfold escapeChar entityOf
  by_cases h1 : c = '&'
  · subst h1; decide
  by_cases h2 : c = '<'
  · subst h2; decide
  by_cases h3 : c = '>'
  · subst h3; decide
  by_cases h4 : c = dquote
  · subst h4; decide
  by_cases h5 : c = squote
  · subst h5; decide
  simp [h1, h2, h3, h4, h5]

theorem entityOf_cases (c : Char) :
    entityOf c ∈ entities ∨
      (entityOf c = [c] ∧ c ≠ '&' ∧ c ≠ '<' ∧ c ≠ '>' ∧ c ≠ dquote ∧ c ≠ squote) := by
  unfold entityOf
  by_cases h1 : c = '&'
  · subst h1; left; decide
  by_cases h2 : c = '<'
  · subst h2; left; decide
  by_cases h3 : c = '>'
  · subst h3; left; decide
  by_cases h4 : c = dquote
  · subst h4; left; decide
  by_cases h5 : c = squote
  · subst h5; left; decide
  right
  simp [h1, h2, h3, h4, h5]

theorem entities_safe :
    ∀ e ∈ entities, e.head? = some '&' ∧ '&' ∉ e.tail ∧
      ∀ c ∈ e, c ≠ '<' ∧ c ≠ '>' ∧ c ≠ dquote ∧ c ≠ squote := by
  decide

theorem entityOf_amp_split (c : Char) (l a : List Char) (h : entityOf c = l ++ '&' :: a) :
    l = [] ∧ entityOf c ∈ entities := by
  rcases entityOf_cases c with he | ⟨he, hne, -⟩
  · refine ⟨?_, he⟩
    cases l with
    | nil => rfl
    | cons x l' =>
      exfalso
      apply (entities_safe _ he).2.1
      rw [h]
      simp
  · exfalso
    rw [he] at h
    cases l with
    | nil => simp at h; exact hne h.1
    | cons x l' => simp at h

theorem flatMap_entityOf_amp (cs : List Char) (l r : List Char)
    (h : cs.flatMap entityOf = l ++ '&' :: r) : ∃ e ∈ entities, e <+: '&' :: r := by
  induction cs generalizing l with
  | nil => simp at h
  | cons c rest ih =>
    rw [List.flatMap_cons, List.append_eq_append_iff] at h
    rcases h with ⟨a', h1, h2⟩ | ⟨c', h1, h2⟩
    · exact ih a' h2
    · cases c' with
      | nil =>
        simp only [List.append_nil, List.nil_append] at h1 h2
        exact ih [] (by simpa using h2.symm)
      | cons x c'' =>
        simp only [List.cons_append, List.cons.injEq] at h2
        obtain ⟨rfl, h2⟩ := h2
        obtain ⟨hl, he⟩ := entityOf_amp_split c l c'' h1
        subst hl
        refine ⟨entityOf c, he, ?_⟩
        rw [h1, h2]
        simp

/-! ## Lemmas on numerals -/

theorem digitChar_facts :
    ∀ d < 10, isDigit (digitChar d) = true ∧ (digitChar d).toNat - 48 = d ∧
      (d ≠ 0 → digitChar d ≠ '0') ∧ digitChar d ≠ '-' := by
  decide

theorem decimalAux_acc (fuel n : Nat) (acc : List Char) :
    decimalAux fuel n acc = decimalAux fuel n [] ++ acc := by
  induction fuel generalizing n acc with
  | zero => simp [decimalAux]
  | succ f ih =>
    simp only [decimalAux]
    split
    · simp
    · rw [ih (n / 10) (digitChar (n % 10) :: acc), ih (n / 10) [digitChar (n % 10)]]
      simp

theorem natOfDigits_append (xs : List Char) (c : Char) :
    natOfDigits (xs ++ [c]) = 10 * natOfDigits xs + (c.toNat - 48) := by
  simp [natOfDigits, List.foldl_append]

theorem natOfDigits_decimalAux (fuel n : Nat) (h : n < fuel) :
    natOfDigits (decimalAux fuel n []) = n := by
  induction fuel generalizing n with
  | zero => omega
  | succ f ih =>
    simp only [decimalAux]
    split
    · rename_i h0
      have hn : n < 10 := by
        by_contra hc
        have : 1 ≤ n / 10 := (Nat.one_le_div_iff (by norm_num)).mpr (by omega)
        omega
      have := (digitChar_facts (n % 10) (Nat.mod_lt _ (by norm_num))).2.1
      simp only [natOfDigits, List.foldl_cons, List.foldl_nil, this]
      omega
    · rename_i h0
      rw [decimalAux_acc, natOfDigits_append, ih (n / 10) (by omega)]
      have := (digitChar_facts (n % 10) (Nat.mod_lt _ (by norm_num))).2.1
      rw [this]
      omega

theorem all_isDigit_decimalAux (fuel n : Nat) :
    ∀ c ∈ decimalAux fuel n [], isDigit c = true := by
  induction fuel generalizing n with
  | zero => simp [decimalAux]
  | succ f ih =>
    have hd := (digitChar_facts (n % 10) (Nat.mod_lt _ (by norm_num))).1
    simp only [decimalAux]
    split
    · simpa using hd
    · rw [decimalAux_acc]
      intro c hc
      rcases List.mem_append.mp hc with hc | hc
      · exact ih _ c hc
      · rw [List.mem_singleton] at hc; rw [hc]; exact hd

theorem head_decimalAux (fuel n : Nat) (h : n < fuel) (hn : n ≠ 0) :
    ∃ c cs, decimalAux fuel n [] = c :: cs ∧ c ≠ '0' := by
  induction fuel generalizing n with
  | zero => omega
  | succ f ih =>
    simp only [decimalAux]
    split
    · rename_i h0
      have hlt : n < 10 := by
        by_contra hc
        have : 1 ≤ n / 10 := (Nat.one_le_div_iff (by norm_num)).mpr (by omega)
        omega
      refine ⟨digitChar (n % 10), [], rfl, ?_⟩
      have := (digitChar_facts (n % 10) (Nat.mod_lt _ (by norm_num))).2.2.1
      apply this
      rw [Nat.mod_eq_of_lt hlt]; exact hn
    · rename_i h0
      obtain ⟨c, cs, hc, hne⟩ := ih (n / 10) (by omega) h0
      rw [decimalAux_acc, hc]
      exact ⟨c, cs ++ [digitChar (n % 10)], rfl, hne⟩

theorem natOfDigits_decimalChars (n : Nat) : natOfDigits (decimalChars n) = n :=
  natOfDigits_decimalAux (n + 1) n (Nat.lt_succ_self n)

theorem all_isDigit_decimalChars (n : Nat) : ∀ c ∈ decimalChars n, isDigit c = true :=
  all_isDigit_decimalAux (n + 1) n

theorem decimalChars_zero : decimalChars 0 = ['0'] := by decide

theorem decimalChars_head (n : Nat) (hn : n ≠ 0) :
    ∃ c cs, decimalChars n = c :: cs ∧ c ≠ '0' :=
  head_decimalAux (n + 1) n (Nat.lt_succ_self n) hn

theorem takeWhile_append_stop (p : Char → Bool) (ds : List Char) (c : Char) (r : List Char)
    (hds : ∀ d ∈ ds, p d = true) (hc : p c = false) :
    (ds ++ c :: r).takeWhile p = ds ∧ (ds ++ c :: r).dropWhile p = c :: r := by
  induction ds with
  | nil => simp [List.takeWhile, List.dropWhile, hc]
  | cons d ds ih =>
    have hd := hds d (List.mem_cons_self _ _)
    have := ih (fun x hx => hds x (List.mem_cons_of_mem _ hx))
    simp [List.takeWhile, List.dropWhile, hd, this]

theorem parseNumber_decimalChars (n : Nat) (rest : List Char) :
    parseNumber (decimalChars n ++ ',' :: rest) = .ok (decimalChars n, ',' :: rest) := by
  by_cases hn : n = 0
  · subst hn
    rw [decimalChars_zero]
    simp [parseNumber, parseInt, parseFrac, parseExp]
  · obtain ⟨c, cs, hc, hne⟩ := decimalChars_head n hn
    have hall := all_isDigit_decimalChars n
    rw [hc] at hall ⊢
    have hcd : isDigit c = true := hall c (List.mem_cons_self _ _)
    have hcm : c ≠ '-' := by
      intro h; rw [h] at hcd; exact absurd hcd (by decide)
    have htd := takeWhile_append_stop isDigit cs ',' rest
      (fun x hx => hall x (List.mem_cons_of_mem _ hx)) (by decide)
    simp [parseNumber, parseInt, parseFrac, parseExp, hcm, hne, hcd, htd.1, htd.2]

/-! ## The order of timestamps -/

theorem decimalAux_fuel (n : Nat) :
    ∀ f1 f2, n < f1 → n < f2 → decimalAux f1 n [] = decimalAux f2 n [] := by
  induction n using Nat.strong_induction_on with
  | _ n ih =>
    intro f1 f2 h1 h2
    obtain ⟨a, rfl⟩ : ∃ a, f1 = a + 1 := ⟨f1 - 1, by omega⟩
    obtain ⟨b, rfl⟩ : ∃ b, f2 = b + 1 := ⟨f2 - 1, by omega⟩
    simp only [decimalAux]
    split
    · rfl
    · rename_i h0
      rw [decimalAux_acc a, decimalAux_acc b, ih (n / 10) (by omega) a b (by omega) (by omega)]

theorem decimalChars_small (n : Nat) (h : n < 10) : decimalChars n = [digitChar n] := by
  have h0 : n / 10 = 0 := by omega
  simp only [decimalChars, decimalAux, h0, ↓reduceIte, Nat.mod_eq_of_lt h]

theorem decimalChars_large (n : Nat) (h : 10 ≤ n) :
    decimalChars n = decimalChars (n / 10) ++ [digitChar (n % 10)] := by
  have h0 : ¬ n / 10 = 0 := by omega
  unfold decimalChars
  conv_lhs => rw [decimalAux]
  rw [if_neg h0, decimalAux_acc, decimalAux_fuel (n / 10) n (n / 10 + 1) (by omega) (by omega)]

theorem length_decimalChars (w n : Nat) (hw : 1 ≤ w) (h : n < 10 ^ w) :
    (decimalChars n).length ≤ w := by
  induction w generalizing n with
  | zero => omega
  | succ w ih =>
    by_cases hn : n < 10
    · rw [decimalChars_small n hn]; simp
    · rw [decimalChars_large n (by omega)]
      have hw1 : 1 ≤ w := by
        by_contra hc
        have : w = 0 := by omega
        subst this
        simp at h
        omega
      have : n / 10 < 10 ^ w := by
        rw [Nat.div_lt_iff_lt_mul (by norm_num)]
        rw [pow_succ] at h
        exact h
      have := ih (n / 10) hw1 this
      simp only [List.length_append, List.length_singleton]
      omega

theorem padZero_one (n : Nat) (h : n < 10) : padZero 1 n = [digitChar n] := by
  simp [padZero, decimalChars_small n h]

theorem padZero_succ (w n : Nat) (hw : 1 ≤ w) (h : n < 10 ^ (w + 1)) :
    padZero (w + 1) n = padZero w (n / 10) ++ [digitChar (n % 10)] := by
  have hdiv : n / 10 < 10 ^ w := by
    rw [Nat.div_lt_iff_lt_mul (by norm_num)]
    rw [pow_succ] at h
    exact h
  have hlen := length_decimalChars w (n / 10) hw hdiv
  by_cases hn : n < 10
  · have h0 : n / 10 = 0 := by omega
    have hz : decimalChars 0 = [digitChar 0] := decimalChars_small 0 (by norm_num)
    simp only [padZero, decimalChars_small n hn, h0, hz, List.length_singleton,
      Nat.mod_eq_of_lt hn, Nat.add_sub_cancel]
    have : List.replicate (w - 1) '0' ++ [digitChar 0] = List.replicate w '0' := by
      obtain ⟨k, rfl⟩ : ∃ k, w = k + 1 := ⟨w - 1, by omega⟩
      simp only [Nat.add_sub_cancel]
      rw [List.replicate_succ']
      rfl
    rw [this]
  · simp only [padZero, decimalChars_large n (by omega), List.length_append,
      List.length_singleton]
    have : w + 1 - ((decimalChars (n / 10)).length + 1) = w - (decimalChars (n / 10)).length := by
      omega
    rw [this, List.append_assoc]

theorem length_padZero (w n : Nat) (hw : 1 ≤ w) (h : n < 10 ^ w) : (padZero w n).length = w := by
  have := length_decimalChars w n hw h
  simp only [padZero, List.length_append, List.length_replicate]
  omega

theorem chars_lt_cons (c : Char) (as bs : List Char) (h : as < bs) : c :: as < c :: bs :=
  List.Lex.cons h

theorem chars_lt_append_left (p as bs : List Char) (h : as < bs) : p ++ as < p ++ bs := by
  induction p with
  | nil => exact h
  | cons c p ih => exact chars_lt_cons c _ _ ih

theorem chars_lt_append_right (as bs : List Char) (h : as < bs)
    (hlen : as.length = bs.length) (r1 r2 : List Char) : as ++ r1 < bs ++ r2 := by
  induction h with
  | nil => simp at hlen
  | cons _ ih =>
    simp only [List.length_cons, Nat.add_right_cancel_iff] at hlen
    exact List.Lex.cons (ih hlen)
  | rel hab => exact List.Lex.rel hab

theorem digitChar_lt : ∀ a < 10, ∀ b < 10, a < b → digitChar a < digitChar b := by
  decide

theorem padZero_lt (w : Nat) (hw : 1 ≤ w) (a b : Nat) (hab : a < b) (hb : b < 10 ^ w) :
    padZero w a < padZero w b := by
  induction w generalizing a b with
  | zero => omega
  | succ w ih =>
    by_cases hw1 : w = 0
    · subst hw1
      simp only [zero_add, pow_one] at hb
      rw [padZero_one a (by omega), padZero_one b hb]
      exact List.Lex.rel (digitChar_lt a (by omega) b hb hab)
    · have hw' : 1 ≤ w := by omega
      have hb' : b / 10 < 10 ^ w := by
        rw [Nat.div_lt_iff_lt_mul (by norm_num)]
        rw [pow_succ] at hb
        exact hb
      rw [padZero_succ w a hw' (by omega), padZero_succ w b hw' hb]
      by_cases hq : a / 10 < b / 10
      · refine chars_lt_append_right _ _ (ih hw' _ _ hq hb') ?_ _ _
        rw [length_padZero w _ hw' (by omega), length_padZero w _ hw' hb']
      · have he : a / 10 = b / 10 := by omega
        rw [he]
        apply chars_lt_append_left
        exact List.Lex.rel (digitChar_lt _ (Nat.mod_lt _ (by norm_num)) _
          (Nat.mod_lt _ (by norm_num)) (by omega))

theorem field_lt (w : Nat) (hw : 1 ≤ w) (a b : Nat) (ha : a < 10 ^ w) (hb : b < 10 ^ w)
    (c : Char) (r1 r2 : List Char) (h : a < b ∨ (a = b ∧ r1 < r2)) :
    padZero w a ++ c :: r1 < padZero w b ++ c :: r2 := by
  rcases h with h | ⟨rfl, h⟩
  · refine chars_lt_append_right _ _ (padZero_lt w hw a b h hb) ?_ _ _
    rw [length_padZero w _ hw ha, length_padZero w _ hw hb]
  · exact chars_lt_append_left _ _ _ (chars_lt_cons c _ _ h)

theorem yoeOf_mono (a b : Nat) (h : a ≤ b) (hb : b < 146097) : yoeOf a ≤ yoeOf b := by
  unfold yoeOf
  apply Nat.div_le_div_right
  omega

set_option maxRecDepth 100000 in
theorem yoeOf_table :
    ∀ y < 400, yoeOf (yearStart y) = y ∧ yoeOf (yearStart (y + 1) - 1) = y := by
  decide

theorem yoeOf_last : yoeOf 146096 = 399 := by decide

theorem yearStart_step (y : Nat) :
    yearStart y < yearStart (y + 1) ∧ yearStart (y + 1) ≤ yearStart y + 366 := by
  unfold yearStart
  omega

theorem yearStart_le (y : Nat) (h : y ≤ 399) : yearStart y ≤ 145731 := by
  unfold yearStart
  omega

theorem yoeOf_spec (doe : Nat) (h : doe < 146097) :
    yoeOf doe ≤ 399 ∧ yearStart (yoeOf doe) ≤ doe ∧ doe ≤ yearStart (yoeOf doe) + 365 := by
  have h399 : yoeOf doe ≤ 399 := by
    have := yoeOf_mono doe 146096 (by omega) (by omega)
    rw [yoeOf_last] at this
    exact this
  refine ⟨h399, ?_, ?_⟩
  · by_contra hc
    have hpos : 0 < yoeOf doe := by
      by_contra h0
      have : yoeOf doe = 0 := by omega
      rw [this] at hc
      simp [yearStart] at hc
    obtain ⟨y, hy⟩ : ∃ y, yoeOf doe = y + 1 := ⟨yoeOf doe - 1, by omega⟩
    rw [hy] at hc
    have hs := yearStart_le (y + 1) (by omega)
    have ht := (yoeOf_table y (by omega)).2
    have := yoeOf_mono doe (yearStart (y + 1) - 1) (by omega) (by omega)
    omega
  · by_cases hl : yoeOf doe = 399
    · rw [hl]
      have : yearStart 399 = 145731 := by decide
      omega
    · by_contra hc
      have hstep := yearStart_step (yoeOf doe)
      have ht := (yoeOf_table (yoeOf doe + 1) (by omega)).1
      have := yoeOf_mono (yearStart (yoeOf doe + 1)) doe (by omega) h
      omega

theorem civilFromDays_eq (days : Nat) :
    civilFromDays days =
      (yoeOf ((days + 719468) % 146097) + (days + 719468) / 146097 * 400 +
        (if (if (5 * ((days + 719468) % 146097 - yearStart (yoeOf ((days + 719468) % 146097)))
                  + 2) / 153 < 10
              then (5 * ((days + 719468) % 146097 -
                  yearStart (yoeOf ((days + 719468) % 146097))) + 2) / 153 + 3
              else (5 * ((days + 719468) % 146097 -
                  yearStart (yoeOf ((days + 719468) % 146097))) + 2) / 153 - 9) ≤ 2
          then 1 else 0),
       (if (5 * ((days + 719468) % 146097 - yearStart (yoeOf ((days + 719468) % 146097)))
                  + 2) / 153 < 10
          then (5 * ((days + 719468) % 146097 -
              yearStart (yoeOf ((days + 719468) % 146097))) + 2) / 153 + 3
          else (5 * ((days + 719468) % 146097 -
              yearStart (yoeOf ((days + 719468) % 146097))) + 2) / 153 - 9),
       (days + 719468) % 146097 - yearStart (yoeOf ((days + 719468) % 146097)) -
          (153 * ((5 * ((days + 719468) % 146097 -
              yearStart (yoeOf ((days + 719468) % 146097))) + 2) / 153) + 2) / 5 + 1) := rfl

theorem civilFromDays_lt (a b : Nat) (h : a < b) :
    (civilFromDays a).1 < (civilFromDays b).1 ∨
    ((civilFromDays a).1 = (civilFromDays b).1 ∧
      ((civilFromDays a).2.1 < (civilFromDays b).2.1 ∨
        ((civilFromDays a).2.1 = (civilFromDays b).2.1 ∧
          (civilFromDays a).2.2 < (civilFromDays b).2.2))) := by
  rw [civilFromDays_eq a, civilFromDays_eq b]
  simp only
  have hda : (a + 719468) % 146097 < 146097 := Nat.mod_lt _ (by norm_num)
  have hdb : (b + 719468) % 146097 < 146097 := Nat.mod_lt _ (by norm_num)
  have sa := yoeOf_spec _ hda
  have sb := yoeOf_spec _ hdb
  have hmono : (a + 719468) % 146097 ≤ (b + 719468) % 146097 →
      yoeOf ((a + 719468) % 146097) ≤ yoeOf ((b + 719468) % 146097) :=
    fun hle => yoeOf_mono _ _ hle hdb
  have hsame : yoeOf ((a + 719468) % 146097) = yoeOf ((b + 719468) % 146097) →
      yearStart (yoeOf ((a + 719468) % 146097)) = yearStart (yoeOf ((b + 719468) % 146097)) :=
    fun he => by rw [he]
  generalize yearStart (yoeOf ((a + 719468) % 146097)) = ysa at *
  generalize yearStart (yoeOf ((b + 719468) % 146097)) = ysb at *
  generalize yoeOf ((a + 719468) % 146097) = ya at *
  generalize yoeOf ((b + 719468) % 146097) = yb at *
  split_ifs <;> omega

theorem civilFromDays_bounds (a : Nat) :
    1 ≤ (civilFromDays a).2.1 ∧ (civilFromDays a).2.1 ≤ 12 ∧
    1 ≤ (civilFromDays a).2.2 ∧ (civilFromDays a).2.2 ≤ 31 := by
  rw [civilFromDays_eq a]
  simp only
  have hda : (a + 719468) % 146097 < 146097 := Nat.mod_lt _ (by norm_num)
  have sa := yoeOf_spec _ hda
  generalize yearStart (yoeOf ((a + 719468) % 146097)) = ysa at *
  generalize yoeOf ((a + 719468) % 146097) = ya at *
  split_ifs <;> omega

theorem civilFromDays_year_le (days : Nat) (h : days ≤ 2932896) :
    (civilFromDays days).1 ≤ 9999 := by
  have e : civilFromDays 2932896 = (9999, 12, 31) := by decide
  by_cases hd : days = 2932896
  · rw [hd, e]
  · have := civilFromDays_lt days 2932896 (by omega)
    rw [e] at this
    simp only at this
    omega

theorem toISOString_data (t : Nat) (hy : (civilFromDays (t / 86400000)).1 ≤ 9999) :
    (toISOString t).data =
      padZero 4 (civilFromDays (t / 86400000)).1 ++ '-' ::
      (padZero 2 (civilFromDays (t / 86400000)).2.1 ++ '-' ::
      (padZero 2 (civilFromDays (t / 86400000)).2.2 ++ 'T' ::
      (padZero 2 (t / 3600000 % 24) ++ ':' ::
      (padZero 2 (t / 60000 % 60) ++ ':' ::
      (padZero 2 (t / 1000 % 60) ++ '.' ::
      (padZero 3 (t % 1000) ++ 'Z' :: [])))))) := by
  unfold toISOString
  generalize civilFromDays (t / 86400000) = c at hy ⊢
  obtain ⟨y, m, d⟩ := c
  simp only at hy ⊢
  rw [if_pos hy]
  simp only [List.append_assoc, List.cons_append, List.nil_append]

theorem split_time (t : Nat) :
    ∃ ms s mi hh dd, t % 1000 = ms ∧ t / 1000 % 60 = s ∧ t / 60000 % 60 = mi ∧
      t / 3600000 % 24 = hh ∧ t / 86400000 = dd ∧ ms < 1000 ∧ s < 60 ∧ mi < 60 ∧ hh < 24 ∧
      t = ms + 1000 * (s + 60 * (mi + 60 * (hh + 24 * dd))) := by
  refine ⟨_, _, _, _, _, rfl, rfl, rfl, rfl, rfl, ?_, ?_, ?_, ?_, ?_⟩
  · exact Nat.mod_lt _ (by norm_num)
  · exact Nat.mod_lt _ (by norm_num)
  · exact Nat.mod_lt _ (by norm_num)
  · exact Nat.mod_lt _ (by norm_num)
  · have e1 : t / 60000 = t / 1000 / 60 := by rw [Nat.div_div_eq_div_mul]
    have e2 : t / 3600000 = t / 1000 / 60 / 60 := by
      rw [Nat.div_div_eq_div_mul, Nat.div_div_eq_div_mul]
    have e3 : t / 86400000 = t / 1000 / 60 / 60 / 24 := by
      rw [Nat.div_div_eq_div_mul, Nat.div_div_eq_div_mul, Nat.div_div_eq_div_mul]
    rw [e1, e2, e3]
    omega

theorem timeOfDay_chain (t1 t2 : Nat) (h : t1 < t2) (hd : t1 / 86400000 = t2 / 86400000) :
    t1 / 3600000 % 24 < t2 / 3600000 % 24 ∨
    (t1 / 3600000 % 24 = t2 / 3600000 % 24 ∧
    (t1 / 60000 % 60 < t2 / 60000 % 60 ∨
    (t1 / 60000 % 60 = t2 / 60000 % 60 ∧
    (t1 / 1000 % 60 < t2 / 1000 % 60 ∨
    (t1 / 1000 % 60 = t2 / 1000 % 60 ∧ t1 % 1000 < t2 % 1000))))) := by
  obtain ⟨ms1, s1, mi1, hh1, dd1, e1, e2, e3, e4, e5, b1, b2, b3, b4, ht1⟩ := split_time t1
  obtain ⟨ms2, s2, mi2, hh2, dd2, f1, f2, f3, f4, f5, c1, c2, c3, c4, ht2⟩ := split_time t2
  rw [e1, e2, e3, e4, f1, f2, f3, f4]
  rw [e5, f5] at hd
  subst hd
  omega

theorem isoChars_lt (y1 m1 d1 h1 i1 s1 f1 y2 m2 d2 h2 i2 s2 f2 : Nat)
    (by1 : y1 < 10 ^ 4) (bm1 : m1 < 10 ^ 2) (bd1 : d1 < 10 ^ 2) (bh1 : h1 < 10 ^ 2)
    (bi1 : i1 < 10 ^ 2) (bs1 : s1 < 10 ^ 2) (bf1 : f1 < 10 ^ 3)
    (by2 : y2 < 10 ^ 4) (bm2 : m2 < 10 ^ 2) (bd2 : d2 < 10 ^ 2) (bh2 : h2 < 10 ^ 2)
    (bi2 : i2 < 10 ^ 2) (bs2 : s2 < 10 ^ 2) (bf2 : f2 < 10 ^ 3)
    (hchain : y1 < y2 ∨ (y1 = y2 ∧ (m1 < m2 ∨ (m1 = m2 ∧ (d1 < d2 ∨ (d1 = d2 ∧
      (h1 < h2 ∨ (h1 = h2 ∧ (i1 < i2 ∨ (i1 = i2 ∧ (s1 < s2 ∨ (s1 = s2 ∧ f1 < f2)))))))))))) :
    padZero 4 y1 ++ '-' :: (padZero 2 m1 ++ '-' :: (padZero 2 d1 ++ 'T' ::
      (padZero 2 h1 ++ ':' :: (padZero 2 i1 ++ ':' :: (padZero 2 s1 ++ '.' ::
      (padZero 3 f1 ++ 'Z' :: [])))))) <
    padZero 4 y2 ++ '-' :: (padZero 2 m2 ++ '-' :: (padZero 2 d2 ++ 'T' ::
      (padZero 2 h2 ++ ':' :: (padZero 2 i2 ++ ':' :: (padZero 2 s2 ++ '.' ::
      (padZero 3 f2 ++ 'Z' :: [])))))) := by
  refine field_lt 4 (by norm_num) _ _ by1 by2 _ _ _ ?_
  refine hchain.imp id (And.imp_right fun hc => ?_)
  refine field_lt 2 (by norm_num) _ _ bm1 bm2 _ _ _ ?_
  refine hc.imp id (And.imp_right fun hc => ?_)
  refine field_lt 2 (by norm_num) _ _ bd1 bd2 _ _ _ ?_
  refine hc.imp id (And.imp_right fun hc => ?_)
  refine field_lt 2 (by norm_num) _ _ bh1 bh2 _ _ _ ?_
  refine hc.imp id (And.imp_right fun hc => ?_)
  refine field_lt 2 (by norm_num) _ _ bi1 bi2 _ _ _ ?_
  refine hc.imp id (And.imp_right fun hc => ?_)
  refine field_lt 2 (by norm_num) _ _ bs1 bs2 _ _ _ ?_
  refine hc.imp id (And.imp_right fun hc => ?_)
  exact field_lt 3 (by norm_num) _ _ bf1 bf2 _ _ _ (Or.inl hc)

theorem civil_time_chain (t1 t2 : Nat) (h : t1 < t2) :
    (civilFromDays (t1 / 86400000)).1 < (civilFromDays (t2 / 86400000)).1 ∨
    ((civilFromDays (t1 / 86400000)).1 = (civilFromDays (t2 / 86400000)).1 ∧
    ((civilFromDays (t1 / 86400000)).2.1 < (civilFromDays (t2 / 86400000)).2.1 ∨
    ((civilFromDays (t1 / 86400000)).2.1 = (civilFromDays (t2 / 86400000)).2.1 ∧
    ((civilFromDays (t1 / 86400000)).2.2 < (civilFromDays (t2 / 86400000)).2.2 ∨
    ((civilFromDays (t1 / 86400000)).2.2 = (civilFromDays (t2 / 86400000)).2.2 ∧
    (t1 / 3600000 % 24 < t2 / 3600000 % 24 ∨
    (t1 / 3600000 % 24 = t2 / 3600000 % 24 ∧
    (t1 / 60000 % 60 < t2 / 60000 % 60 ∨
    (t1 / 60000 % 60 = t2 / 60000 % 60 ∧
    (t1 / 1000 % 60 < t2 / 1000 % 60 ∨
    (t1 / 1000 % 60 = t2 / 1000 % 60 ∧ t1 % 1000 < t2 % 1000))))))))))) := by
  by_cases hd : t1 / 86400000 < t2 / 86400000
  · rcases civilFromDays_lt _ _ hd with hl | ⟨e, hl | ⟨e', hl⟩⟩
    · exact Or.inl hl
    · exact Or.inr ⟨e, Or.inl hl⟩
    · exact Or.inr ⟨e, Or.inr ⟨e', Or.inl hl⟩⟩
  · have hle : t1 / 86400000 ≤ t2 / 86400000 := Nat.div_le_div_right (Nat.le_of_lt h)
    have hd' : t1 / 86400000 = t2 / 86400000 := Nat.le_antisymm hle (Nat.le_of_not_lt hd)
    rw [hd']
    exact Or.inr ⟨rfl, Or.inr ⟨rfl, Or.inr ⟨rfl, timeOfDay_chain t1 t2 h hd'⟩⟩⟩

theorem string_lt_of_data (s1 s2 : String) (h : s1.data < s2.data) : s1 < s2 :=
  String.lt_iff_toList_lt.mpr h

theorem toISOString_lt (t1 t2 : Nat) (h : t1 < t2) (hmax : t2 < 253402300800000) :
    toISOString t1 < toISOString t2 := by
  apply string_lt_of_data
  have hd2 : t2 / 86400000 ≤ 2932896 := by
    rw [Nat.div_le_iff_le_mul_add_pred (by norm_num)]
    omega
  have hd1 : t1 / 86400000 ≤ 2932896 :=
    Nat.le_trans (Nat.div_le_div_right (Nat.le_of_lt h)) hd2
  have hy1 := civilFromDays_year_le (t1 / 86400000) hd1
  have hy2 := civilFromDays_year_le (t2 / 86400000) hd2
  have hb1 := civilFromDays_bounds (t1 / 86400000)
  have hb2 := civilFromDays_bounds (t2 / 86400000)
  rw [toISOString_data t1 hy1, toISOString_data t2 hy2]
  exact isoChars_lt _ _ _ _ _ _ _ _ _ _ _ _ _ _
    (Nat.lt_of_le_of_lt hy1 (by norm_num))
    (Nat.lt_of_le_of_lt hb1.2.1 (by norm_num))
    (Nat.lt_of_le_of_lt hb1.2.2.2 (by norm_num))
    (Nat.lt_trans (Nat.mod_lt _ (by norm_num)) (by norm_num))
    (Nat.lt_trans (Nat.mod_lt _ (by norm_num)) (by norm_num))
    (Nat.lt_trans (Nat.mod_lt _ (by norm_num)) (by norm_num))
    (Nat.mod_lt _ (by norm_num))
    (Nat.lt_of_le_of_lt hy2 (by norm_num))
    (Nat.lt_of_le_of_lt hb2.2.1 (by norm_num))
    (Nat.lt_of_le_of_lt hb2.2.2.2 (by norm_num))
    (Nat.lt_trans (Nat.mod_lt _ (by norm_num)) (by norm_num))
    (Nat.lt_trans (Nat.mod_lt _ (by norm_num)) (by norm_num))
    (Nat.lt_trans (Nat.mod_lt _ (by norm_num)) (by norm_num))
    (Nat.mod_lt _ (by norm_num))
    (civil_time_chain t1 t2 h)

/-! ## Lemmas on string literals -/

theorem hexVal_hexDigit : ∀ d < 16, hexVal (hexDigit d) = some d := by
  decide

theorem char_eq_of_toNat (c : Char) (n : Nat) (h : c.toNat = n) : Char.ofNat n = c := by
  rw [← h]; exact Char.ofNat_toNat c

theorem parseStringBody_control (c : Char) (cs : List Char) (acc : List Nat)
    (h : c.toNat < 32) :
    parseStringBody
        (backslash :: 'u' :: '0' :: '0' :: hexDigit (c.toNat / 16) ::
          hexDigit (c.toNat % 16) :: cs) (.plain false) acc =
      parseStringBody cs (.plain false) (c.toNat :: acc) := by
  have h0 : hexVal '0' = some 0 := by decide
  have ha := hexVal_hexDigit (c.toNat / 16) (by omega)
  have hb := hexVal_hexDigit (c.toNat % 16) (by omega)
  have hv : (0 * 16 + 0) * 16 + c.toNat / 16 = c.toNat / 16 := by omega
  have hw : (c.toNat / 16) * 16 + c.toNat % 16 = c.toNat := by omega
  have hh : isHighSurrogate c.toNat = false := by
    simp only [isHighSurrogate, Bool.and_eq_false_imp, decide_eq_true_eq, decide_eq_false_iff_not]
    omega
  simp only [parseStringBody, show ¬ (backslash = dquote) by decide, ↓reduceIte,
    show ¬ ('u' = dquote) by decide, show ¬ ('u' = backslash) by decide,
    show ¬ ('u' = '/') by decide, show ¬ ('u' = 'b') by decide, show ¬ ('u' = 'f') by decide,
    show ¬ ('u' = 'n') by decide, show ¬ ('u' = 'r') by decide, show ¬ ('u' = 't') by decide,
    h0, ha, hb, hv, hw, hh, Nat.lt_irrefl, Nat.zero_lt_succ, Nat.reduceLT, Nat.reduceAdd,
    Nat.zero_mul, Nat.zero_add, pushUnit]

theorem parseStringBody_two (e : Char) (d : Nat) (cs : List Char) (acc : List Nat)
    (h : parseStringBody (e :: cs) (.escape false) acc =
      parseStringBody cs (.plain false) (d :: acc)) :
    parseStringBody (backslash :: e :: cs) (.plain false) acc =
      parseStringBody cs (.plain false) (d :: acc) := by
  rw [← h]
  simp only [parseStringBody, show ¬ (backslash = dquote) by decide, ↓reduceIte]

theorem parseStringBody_quoteJSONChar (c : Char) (cs : List Char) (acc : List Nat) :
    parseStringBody (quoteJSONChar c ++ cs) (.plain false) acc =
      parseStringBody cs (.plain false) (c.toNat :: acc) := by
  unfold quoteJSONChar
  by_cases h1 : c = dquote
  · subst h1
    rw [if_pos rfl]
    exact parseStringBody_two _ _ _ _ (by simp only [parseStringBody, ↓reduceIte]; rfl)
  rw [if_neg h1]
  by_cases h2 : c = backslash
  · subst h2
    rw [if_pos rfl]
    exact parseStringBody_two _ _ _ _ (by
      simp only [parseStringBody, show ¬ (backslash = dquote) by decide, ↓reduceIte]; rfl)
  rw [if_neg h2]
  by_cases h3 : c.toNat = 8
  · rw [if_pos h3, h3]
    exact parseStringBody_two _ _ _ _ (by
      simp only [parseStringBody, show ¬ ('b' = dquote) by decide,
        show ¬ ('b' = backslash) by decide, show ¬ ('b' = '/') by decide, ↓reduceIte])
  rw [if_neg h3]
  by_cases h4 : c.toNat = 9
  · rw [if_pos h4, h4]
    exact parseStringBody_two _ _ _ _ (by
      simp only [parseStringBody, show ¬ ('t' = dquote) by decide,
        show ¬ ('t' = backslash) by decide, show ¬ ('t' = '/') by decide,
        show ¬ ('t' = 'b') by decide, show ¬ ('t' = 'f') by decide,
        show ¬ ('t' = 'n') by decide, show ¬ ('t' = 'r') by decide, ↓reduceIte])
  rw [if_neg h4]
  by_cases h5 : c.toNat = 10
  · rw [if_pos h5, h5]
    exact parseStringBody_two _ _ _ _ (by
      simp only [parseStringBody, show ¬ ('n' = dquote) by decide,
        show ¬ ('n' = backslash) by decide, show ¬ ('n' = '/') by decide,
        show ¬ ('n' = 'b') by decide, show ¬ ('n' = 'f') by decide, ↓reduceIte])
  rw [if_neg h5]
  by_cases h6 : c.toNat = 12
  · rw [if_pos h6, h6]
    exact parseStringBody_two _ _ _ _ (by
      simp only [parseStringBody, show ¬ ('f' = dquote) by decide,
        show ¬ ('f' = backslash) by decide, show ¬ ('f' = '/') by decide,
        show ¬ ('f' = 'b') by decide, ↓reduceIte])
  rw [if_neg h6]
  by_cases h7 : c.toNat = 13
  · rw [if_pos h7, h7]
    exact parseStringBody_two _ _ _ _ (by
      simp only [parseStringBody, show ¬ ('r' = dquote) by decide,
        show ¬ ('r' = backslash) by decide, show ¬ ('r' = '/') by decide,
        show ¬ ('r' = 'b') by decide, show ¬ ('r' = 'f') by decide,
        show ¬ ('r' = 'n') by decide, ↓reduceIte])
  rw [if_neg h7]
  by_cases h8 : c.toNat < 32
  · rw [if_pos h8]
    exact parseStringBody_control c cs acc h8
  rw [if_neg h8]
  rw [List.singleton_append]
  simp only [parseStringBody, h1, h2, h8, ↓reduceIte]

theorem parseStringBody_quoted (s : List Char) (acc : List Nat) (rest : List Char) :
    parseStringBody (s.flatMap quoteJSONChar ++ dquote :: rest) (.plain false) acc =
      .ok (acc.reverse ++ s.map Char.toNat, rest) := by
  induction s generalizing acc with
  | nil => simp only [List.flatMap_nil, List.nil_append, parseStringBody, ↓reduceIte,
      List.map_nil, List.append_nil]
  | cons c s ih =>
    rw [List.flatMap_cons, List.append_assoc, parseStringBody_quoteJSONChar, ih]
    simp

theorem quoteJSONString_eq (s : String) (rest : List Char) :
    quoteJSONString s ++ rest = dquote :: (s.data.flatMap quoteJSONChar ++ dquote :: rest) := by
  simp [quoteJSONString]

theorem parseStringBody_literal (s : String) (rest : List Char) :
    parseStringBody (s.data.flatMap quoteJSONChar ++ dquote :: rest) (.plain false) [] =
      .ok (codePoints s, rest) := by
  rw [parseStringBody_quoted]; rfl

/-! ## Lemmas on the parser -/

theorem skipWs_cons (c : Char) (cs : List Char) (h : isJsonWs c = false) :
    skipWs (c :: cs) = c :: cs := by
  simp [skipWs, List.dropWhile, h]

theorem isDigit_not_special (c : Char) (h : isDigit c = true) :
    isJsonWs c = false ∧ c ≠ lbrace ∧ c ≠ '[' ∧ c ≠ dquote ∧ c ≠ 't' ∧ c ≠ 'f' ∧ c ≠ 'n' := by
  refine ⟨?_, ?_, ?_, ?_, ?_, ?_, ?_⟩
  · simp only [isDigit, Bool.and_eq_true, decide_eq_true_eq] at h
    simp only [isJsonWs, Bool.or_eq_false_iff, beq_eq_false_iff_ne, ne_eq]
    omega
  all_goals (intro h'; subst h'; exact absurd h (by decide))

theorem decimalChars_ne_nil (n : Nat) : decimalChars n ≠ [] := by
  by_cases hn : n = 0
  · subst hn; decide
  · obtain ⟨c, cs, hc, -⟩ := decimalChars_head n hn
    rw [hc]; exact List.cons_ne_nil _ _

theorem parseValue_string (f : Nat) (s : String) (rest : List Char) :
    parseValue (f + 1) (skipWs (quoteJSONString s ++ rest)) =
      .ok (Json.str (codePoints s), rest) := by
  rw [quoteJSONString_eq, skipWs_cons _ _ (by decide), parseValue]
  simp only [show ¬ (dquote = lbrace) by decide, show ¬ (dquote = '[') by decide, ↓reduceIte,
    parseStringBody_literal]

theorem parseValue_number (f n : Nat) (rest : List Char) :
    parseValue (f + 1) (skipWs (decimalChars n ++ ',' :: rest)) =
      .ok (Json.num (decimalChars n), ',' :: rest) := by
  have hp := parseNumber_decimalChars n rest
  have hall := all_isDigit_decimalChars n
  cases hd : decimalChars n with
  | nil => exact absurd hd (decimalChars_ne_nil n)
  | cons c cs =>
    rw [hd] at hp hall
    obtain ⟨h0, h1, h2, h3, h4, h5, h6⟩ := isDigit_not_special c (hall c (List.mem_cons_self _ _))
    rw [List.cons_append, skipWs_cons _ _ h0, parseValue]
    simp only [h1, h2, h3, h4, h5, h6, ↓reduceIte]
    rw [← List.cons_append, hp]

theorem parseValue_bool (f : Nat) (b : Bool) (rest : List Char) :
    parseValue (f + 1) (skipWs ((if b then "true".data else "false".data) ++ rest)) =
      .ok (Json.bool b, rest) := by
  cases b
  · have e : "false".data = ['f', 'a', 'l', 's', 'e'] := rfl
    simp only [Bool.false_eq_true, ↓reduceIte, e, List.cons_append, List.nil_append]
    rw [skipWs_cons _ _ (by decide), parseValue]
    simp [expectWord, e, show ¬ ('f' = lbrace) by decide, show ¬ ('f' = dquote) by decide,
      show ¬ ('t' = lbrace) by decide, show ¬ ('t' = dquote) by decide]
  · have e : "true".data = ['t', 'r', 'u', 'e'] := rfl
    simp only [↓reduceIte, e, List.cons_append, List.nil_append]
    rw [skipWs_cons _ _ (by decide), parseValue]
    simp [expectWord, e, show ¬ ('f' = lbrace) by decide, show ¬ ('f' = dquote) by decide,
      show ¬ ('t' = lbrace) by decide, show ¬ ('t' = dquote) by decide]

theorem parseMembers_step (f : Nat) (key : String) (valueText : List Char) (v : Json)
    (d : Char) (rest : List Char) (acc : List (List Nat × Json))
    (hv : parseValue f (skipWs (valueText ++ d :: rest)) = .ok (v, d :: rest))
    (hd : isJsonWs d = false) :
    parseMembers (f + 1) (jsonMember key valueText ++ d :: rest) acc =
      if d = ',' then parseMembers f rest ((codePoints key, v) :: acc)
      else if d = rbrace then .ok (((codePoints key, v) :: acc).reverse, rest)
      else .error .syntaxError := by
  have e : jsonMember key valueText ++ d :: rest =
      dquote :: (key.data.flatMap quoteJSONChar ++
        dquote :: (':' :: (valueText ++ d :: rest))) := by
    simp [jsonMember, quoteJSONString]
  rw [e, parseMembers, skipWs_cons _ _ (by decide)]
  simp only [↓reduceIte, parseStringBody_literal]
  rw [skipWs_cons _ _ (by decide)]
  simp only [↓reduceIte, hv]
  rw [skipWs_cons _ _ hd]

theorem parseMembers_more (f : Nat) (key : String) (valueText : List Char) (v : Json)
    (rest : List Char) (acc : List (List Nat × Json))
    (hv : ∀ r, parseValue f (skipWs (valueText ++ ',' :: r)) = .ok (v, ',' :: r)) :
    parseMembers (f + 1) (jsonMember key valueText ++ ',' :: rest) acc =
      parseMembers f rest ((codePoints key, v) :: acc) := by
  rw [parseMembers_step f key valueText v ',' rest acc (hv rest) (by decide), if_pos rfl]

theorem parseMembers_last (f : Nat) (key : String) (valueText : List Char) (v : Json)
    (rest : List Char) (acc : List (List Nat × Json))
    (hv : ∀ r, parseValue f (skipWs (valueText ++ rbrace :: r)) = .ok (v, rbrace :: r)) :
    parseMembers (f + 1) (jsonMember key valueText ++ rbrace :: rest) acc =
      .ok (((codePoints key, v) :: acc).reverse, rest) := by
  rw [parseMembers_step f key valueText v rbrace rest acc (hv rest) (by decide),
    if_neg (by decide), if_pos rfl]

theorem stringifyNote_append (n : Note) (rest : List Char) :
    stringifyNote n ++ rest =
      lbrace :: (jsonMember "id" (decimalChars n.id) ++
        ',' :: (jsonMember "title" (quoteJSONString n.title) ++
        ',' :: (jsonMember "content" (quoteJSONString n.content) ++
        ',' :: (jsonMember "category" (quoteJSONString n.category) ++
        ',' :: (jsonMember "completed" (if n.completed then "true".data else "false".data) ++
        ',' :: (jsonMember "createdAt" (quoteJSONString n.createdAt) ++
        ',' :: (jsonMember "updatedAt" (quoteJSONString n.updatedAt) ++
        rbrace :: rest))))))) := by
  simp only [stringifyNote, List.append_assoc, List.cons_append, List.nil_append]

theorem jsonMember_head (key : String) (valueText rest : List Char) :
    ∃ tl, jsonMember key valueText ++ rest = dquote :: tl := by
  exact ⟨_, by simp [jsonMember, quoteJSONString]; rfl⟩

theorem parseValue_note (f : Nat) (n : Note) (rest : List Char) :
    parseValue (f + 9) (stringifyNote n ++ rest) = .ok (noteJson n, rest) := by
  rw [stringifyNote_append]
  obtain ⟨tl, htl⟩ := jsonMember_head "id" (decimalChars n.id)
    (',' :: (jsonMember "title" (quoteJSONString n.title) ++
        ',' :: (jsonMember "content" (quoteJSONString n.content) ++
        ',' :: (jsonMember "category" (quoteJSONString n.category) ++
        ',' :: (jsonMember "completed" (if n.completed then "true".data else "false".data) ++
        ',' :: (jsonMember "createdAt" (quoteJSONString n.createdAt) ++
        ',' :: (jsonMember "updatedAt" (quoteJSONString n.updatedAt) ++
        rbrace :: rest)))))))
  rw [parseValue]
  simp only [↓reduceIte]
  rw [htl, skipWs_cons _ _ (by decide)]
  simp only [show ¬ (dquote = rbrace) by decide, ↓reduceIte]
  rw [← htl]
  rw [parseMembers_more (f + 7) _ _ _ _ _ (fun r => parseValue_number (f + 6) n.id r),
    parseMembers_more (f + 6) _ _ _ _ _ (fun r => parseValue_string (f + 5) n.title _),
    parseMembers_more (f + 5) _ _ _ _ _ (fun r => parseValue_string (f + 4) n.content _),
    parseMembers_more (f + 4) _ _ _ _ _ (fun r => parseValue_string (f + 3) n.category _),
    parseMembers_more (f + 3) _ _ _ _ _ (fun r => parseValue_bool (f + 2) n.completed _),
    parseMembers_more (f + 2) _ _ _ _ _ (fun r => parseValue_string (f + 1) n.createdAt _),
    parseMembers_last (f + 1) _ _ _ _ _ (fun r => parseValue_string f n.updatedAt _)]
  rfl

theorem stringifyNote_head (n : Note) (rest : List Char) :
    ∃ tl, stringifyNote n ++ rest = lbrace :: tl :=
  ⟨_, stringifyNote_append n rest⟩

theorem parseElements_notes (f : Nat) (ts : List Note) (hts : ts ≠ []) (rest : List Char)
    (acc : List Json) :
    parseElements (f + ts.length + 9) (stringifyElements ts ++ ']' :: rest) acc =
      .ok (acc.reverse ++ ts.map noteJson, rest) := by
  induction ts generalizing acc with
  | nil => exact absurd rfl hts
  | cons n tl ih =>
    cases tl with
    | nil =>
      obtain ⟨x, hx⟩ := stringifyNote_head n (']' :: rest)
      simp only [stringifyElements, List.length_singleton]
      rw [parseElements, hx, skipWs_cons _ _ (by decide), ← hx, parseValue_note]
      simp only
      rw [skipWs_cons _ _ (by decide)]
      simp
    | cons m tl' =>
      obtain ⟨x, hx⟩ := stringifyNote_head n (',' :: (stringifyElements (m :: tl') ++ ']' :: rest))
      have e : stringifyElements (n :: m :: tl') ++ ']' :: rest =
          stringifyNote n ++ ',' :: (stringifyElements (m :: tl') ++ ']' :: rest) := by
        simp [stringifyElements]
      have hfuel : f + (n :: m :: tl').length + 9 = (f + (m :: tl').length + 9) + 1 := by
        simp only [List.length_cons]; omega
      have hfuel2 : f + (m :: tl').length + 9 = (f + (m :: tl').length) + 9 := rfl
      rw [e, hfuel, parseElements, hx, skipWs_cons _ _ (by decide), ← hx]
      rw [hfuel2, parseValue_note]
      simp only
      rw [skipWs_cons _ _ (by decide)]
      simp only [↓reduceIte]
      rw [← hfuel2, ih (List.cons_ne_nil _ _)]
      simp

theorem codePoints_all_isScalar (s : String) : (codePoints s).all isScalar = true := by
  rw [List.all_eq_true]
  intro v hv
  obtain ⟨c, -, rfl⟩ := List.mem_map.mp hv
  have := c.valid
  simp only [isScalar, Bool.or_eq_true, decide_eq_true_eq, Bool.and_eq_true]
  simp only [UInt32.isValidChar, Nat.isValidChar] at this
  exact this

theorem asString_codePoints (s : String) : asString (Json.str (codePoints s)) = some s := by
  simp only [asString, codePoints_all_isScalar, ↓reduceIte, Option.some.injEq]
  cases s with
  | mk data =>
    congr 1
    simp only [codePoints, List.map_map]
    conv_rhs => rw [← List.map_id data]
    congr 1
    funext c
    exact Char.ofNat_toNat c

theorem codePoints_injective (s t : String) (h : codePoints s = codePoints t) : s = t := by
  have hs := asString_codePoints s
  rw [h, asString_codePoints] at hs
  exact (Option.some.inj hs).symm

theorem lookupMember_noteJson (n : Note) (ms : List (List Nat × Json))
    (h : noteJson n = Json.obj ms) :
    lookupMember (codePoints "id") ms = some (Json.num (decimalChars n.id)) ∧
    lookupMember (codePoints "title") ms = some (Json.str (codePoints n.title)) ∧
    lookupMember (codePoints "content") ms = some (Json.str (codePoints n.content)) ∧
    lookupMember (codePoints "category") ms = some (Json.str (codePoints n.category)) ∧
    lookupMember (codePoints "completed") ms = some (Json.bool n.completed) ∧
    lookupMember (codePoints "createdAt") ms = some (Json.str (codePoints n.createdAt)) ∧
    lookupMember (codePoints "updatedAt") ms = some (Json.str (codePoints n.updatedAt)) := by
  simp only [noteJson, Json.obj.injEq] at h
  subst h
  exact ⟨rfl, rfl, rfl, rfl, rfl, rfl, rfl⟩

theorem asNote_noteJson (n : Note) : asNote (noteJson n) = some n := by
  have hall : (decimalChars n.id).all isDigit = true :=
    List.all_eq_true.mpr (all_isDigit_decimalChars n.id)
  obtain ⟨h1, h2, h3, h4, h5, h6, h7⟩ := lookupMember_noteJson n _ rfl
  show asNote (Json.obj _) = some n
  simp only [asNote, h1, h2, h3, h4, h5, h6, h7, Option.bind_eq_bind, Option.some_bind,
    asNat, hall, ↓reduceIte, natOfDigits_decimalChars, asString_codePoints, asBool,
    Option.pure_def]

theorem asNoteList_noteJson (ts : List Note) : asNoteList (ts.map noteJson) = some ts := by
  induction ts with
  | nil => rfl
  | cons n tl ih => simp [asNoteList, asNote_noteJson, ih]

theorem length_stringifyNote (n : Note) : 4 ≤ (stringifyNote n).length := by
  simp only [stringifyNote, jsonMember, quoteJSONString, List.length_append, List.length_cons,
    List.length_nil]
  omega

theorem length_stringifyElements (ts : List Note) :
    4 * ts.length ≤ (stringifyElements ts).length := by
  induction ts with
  | nil => simp
  | cons n tl ih =>
    have := length_stringifyNote n
    cases tl with
    | nil => simpa [stringifyElements] using this
    | cons m tl' =>
      simp only [stringifyElements, List.length_append, List.length_cons] at ih ⊢
      omega

theorem jsonParse_stringifyTodos (ts : List Note) :
    jsonParse (stringifyTodos ts) = .ok (Json.arr (ts.map noteJson)) := by
  unfold jsonParse stringifyTodos
  simp only [List.cons_append]
  rw [skipWs_cons _ _ (by decide)]
  by_cases hts : ts = []
  · subst hts
    simp [stringifyElements, parseValue, skipWs, List.dropWhile,
      show ¬ ('[' = lbrace) by decide, show isJsonWs ']' = false by decide]
  · have hlen := length_stringifyElements ts
    have hpos : 0 < ts.length := List.length_pos.mpr hts
    obtain ⟨f, hf⟩ : ∃ f, 2 * ('[' :: (stringifyElements ts ++ [']'])).length + 2 =
        (f + ts.length + 9) + 1 := by
      refine ⟨2 * ('[' :: (stringifyElements ts ++ [']'])).length + 2 - (ts.length + 10), ?_⟩
      simp only [List.length_cons, List.length_append, List.length_nil]
      omega
    rw [hf, parseValue]
    simp only [show ¬ ('[' = lbrace) by decide, ↓reduceIte]
    obtain ⟨n, tl, rfl⟩ := List.exists_cons_of_ne_nil hts
    have e : stringifyElements (n :: tl) ++ [']'] = stringifyElements (n :: tl) ++ ']' :: [] :=
      rfl
    obtain ⟨x, hx⟩ : ∃ x, stringifyElements (n :: tl) ++ ']' :: [] = lbrace :: x := by
      cases tl with
      | nil => exact stringifyNote_head n _
      | cons m tl' =>
        obtain ⟨y, hy⟩ := stringifyNote_head n
          (',' :: stringifyElements (m :: tl') ++ ']' :: [])
        exact ⟨y, by rw [← hy]; simp [stringifyElements]⟩
    rw [e, hx, skipWs_cons _ _ (by decide)]
    simp only [show ¬ (lbrace = ']') by decide, ↓reduceIte]
    rw [← hx, parseElements_notes f (n :: tl) hts [] []]
    simp [skipWs]

/-! ## Lemmas on the store -/

theorem getItem_setItem (ls : Storage) (key value : String) :
    getItem (setItem ls key value) key = some value := by
  induction ls with
  | nil => simp [setItem, getItem]
  | cons kv rest ih =>
    obtain ⟨k, v⟩ := kv
    by_cases h : k = key
    · simp [setItem, getItem, h]
    · simp [setItem, getItem, h, ih]

theorem truthy_stringifyTodos (ts : List Note) : truthy (stringifyTodos ts) = true := by
  simp [truthy, stringifyTodos]

theorem loadTodos_of_saved (ls : Storage) (todos : Json) (ts : List Note)
    (h : getItem ls "todos" = some (stringifyTodos ts)) :
    loadTodos ls todos = (Json.arr (ts.map noteJson), Completion.normal) := by
  unfold loadTodos
  rw [h]
  simp only [truthy_stringifyTodos, ↓reduceIte, jsonParse_stringifyTodos]

theorem freshLoad_of_saved (ls : Storage) (ts : List Note)
    (h : getItem ls "todos" = some (stringifyTodos ts)) :
    freshLoad ls = ({ initialState ls with todos := ts }, Completion.normal) := by
  unfold freshLoad
  rw [loadTodos_of_saved ls _ ts h]
  simp only [asNotes, asNoteList_noteJson]

theorem persisted_of_saved (st : State)
    (h : getItem st.localStorage "todos" = some (stringifyTodos st.todos)) : Persisted st :=
  freshLoad_of_saved st.localStorage st.todos h

theorem persisted_saveTodos (st : State) : Persisted (saveTodos st) :=
  persisted_of_saved _ (getItem_setItem _ _ _)

/-! ## The recursion bound of `jsonParse` is never reached -/

theorem parseStringBody_spec (cs : List Char) (st : StringState) (acc : List Nat) :
    parseStringBody cs st acc ≠ .error .outOfFuel ∧
    ∀ s rest, parseStringBody cs st acc = .ok (s, rest) → rest.length < cs.length := by
  induction cs generalizing st acc with
  | nil => simp [parseStringBody]
  | cons c cs ih =>
    have lift : ∀ st' acc', parseStringBody cs st' acc' ≠ .error .outOfFuel ∧
        ∀ s rest, parseStringBody cs st' acc' = .ok (s, rest) →
          rest.length < (c :: cs).length := by
      intro st' acc'
      refine ⟨(ih st' acc').1, fun s rest h => ?_⟩
      have := (ih st' acc').2 s rest h
      simp only [List.length_cons]; omega
    cases st with
    | plain pending =>
      simp only [parseStringBody]
      split_ifs
      · simp
      · exact lift _ _
      · simp
      · exact lift _ _
    | escape pending =>
      simp only [parseStringBody]
      by_cases h1 : c = dquote
      · rw [if_pos h1]; exact lift _ _
      rw [if_neg h1]
      by_cases h2 : c = backslash
      · rw [if_pos h2]; exact lift _ _
      rw [if_neg h2]
      by_cases h3 : c = '/'
      · rw [if_pos h3]; exact lift _ _
      rw [if_neg h3]
      by_cases h4 : c = 'b'
      · rw [if_pos h4]; exact lift _ _
      rw [if_neg h4]
      by_cases h5 : c = 'f'
      · rw [if_pos h5]; exact lift _ _
      rw [if_neg h5]
      by_cases h6 : c = 'n'
      · rw [if_pos h6]; exact lift _ _
      rw [if_neg h6]
      by_cases h7 : c = 'r'
      · rw [if_pos h7]; exact lift _ _
      rw [if_neg h7]
      by_cases h8 : c = 't'
      · rw [if_pos h8]; exact lift _ _
      rw [if_neg h8]
      by_cases h9 : c = 'u'
      · rw [if_pos h9]; exact lift _ _
      rw [if_neg h9]
      simp
    | hex pending count value =>
      simp only [parseStringBody]
      cases hexVal c with
      | none => simp
      | some d =>
        simp only
        split_ifs <;> exact lift _ _

theorem length_dropWhile_le (p : Char → Bool) (cs : List Char) :
    (cs.dropWhile p).length ≤ cs.length :=
  (List.dropWhile_suffix p).length_le

theorem skipWs_length (cs : List Char) : (skipWs cs).length ≤ cs.length :=
  length_dropWhile_le _ _

theorem parseDigits_spec (cs : List Char) :
    parseDigits cs ≠ .error .outOfFuel ∧
    ∀ ds rest, parseDigits cs = .ok (ds, rest) → rest.length ≤ cs.length := by
  unfold parseDigits
  split_ifs
  · simp
  · refine ⟨by simp, fun ds rest h => ?_⟩
    simp only [Except.ok.injEq, Prod.mk.injEq] at h
    rw [← h.2]
    exact length_dropWhile_le _ _

theorem parseInt_spec (cs : List Char) :
    parseInt cs ≠ .error .outOfFuel ∧
    ∀ ds rest, parseInt cs = .ok (ds, rest) → rest.length ≤ cs.length := by
  unfold parseInt
  cases cs with
  | nil => simp
  | cons c rest =>
    simp only
    split_ifs
    · refine ⟨by simp, fun ds r h => ?_⟩
      simp only [Except.ok.injEq, Prod.mk.injEq] at h
      rw [← h.2]; simp
    · refine ⟨by simp, fun ds r h => ?_⟩
      simp only [Except.ok.injEq, Prod.mk.injEq] at h
      rw [← h.2]
      have := length_dropWhile_le isDigit rest
      simp only [List.length_cons]; omega
    · simp

theorem parseFrac_spec (cs : List Char) :
    parseFrac cs ≠ .error .outOfFuel ∧
    ∀ ds rest, parseFrac cs = .ok (ds, rest) → rest.length ≤ cs.length := by
  unfold parseFrac
  cases cs with
  | nil => simp
  | cons c rest =>
    simp only
    split_ifs
    · have hd := parseDigits_spec rest
      cases hp : parseDigits rest with
      | error e =>
        rw [hp] at hd
        refine ⟨?_, by simp⟩
        intro h
        simp only [Except.error.injEq] at h
        exact hd.1 (by rw [h])
      | ok r =>
        obtain ⟨ds, rest1⟩ := r
        refine ⟨by simp, fun ds' r' h => ?_⟩
        simp only [Except.ok.injEq, Prod.mk.injEq] at h
        have := hd.2 ds rest1 hp
        rw [← h.2]
        simp only [List.length_cons]; omega
    · refine ⟨by simp, fun ds r h => ?_⟩
      simp only [Except.ok.injEq, Prod.mk.injEq] at h
      rw [← h.2]

theorem parseExp_spec (cs : List Char) :
    parseExp cs ≠ .error .outOfFuel ∧
    ∀ ds rest, parseExp cs = .ok (ds, rest) → rest.length ≤ cs.length := by
  unfold parseExp
  cases cs with
  | nil => simp
  | cons c rest =>
    simp only
    split_ifs
    · cases rest with
      | nil => simp
      | cons s rest1 =>
        simp only
        split_ifs
        · have hd := parseDigits_spec rest1
          cases hp : parseDigits rest1 with
          | error e =>
            rw [hp] at hd
            refine ⟨?_, by simp⟩
            intro h
            simp only [Except.error.injEq] at h
            exact hd.1 (by rw [h])
          | ok r =>
            obtain ⟨ds, rest2⟩ := r
            refine ⟨by simp, fun ds' r' h => ?_⟩
            simp only [Except.ok.injEq, Prod.mk.injEq] at h
            have := hd.2 ds rest2 hp
            rw [← h.2]
            simp only [List.length_cons]; omega
        · have hd := parseDigits_spec (s :: rest1)
          cases hp : parseDigits (s :: rest1) with
          | error e =>
            rw [hp] at hd
            refine ⟨?_, by simp⟩
            intro h
            simp only [Except.error.injEq] at h
            exact hd.1 (by rw [h])
          | ok r =>
            obtain ⟨ds, rest2⟩ := r
            refine ⟨by simp, fun ds' r' h => ?_⟩
            simp only [Except.ok.injEq, Prod.mk.injEq] at h
            have := hd.2 ds rest2 hp
            rw [← h.2]
            simp only [List.length_cons] at this ⊢; omega
    · refine ⟨by simp, fun ds r h => ?_⟩
      simp only [Except.ok.injEq, Prod.mk.injEq] at h
      rw [← h.2]

theorem parseNumber_spec (cs : List Char) :
    parseNumber cs ≠ .error .outOfFuel ∧
    ∀ ds rest, parseNumber cs = .ok (ds, rest) → rest.length ≤ cs.length := by
  have key : ∀ (sign cs0 : List Char), cs0.length ≤ cs.length →
      (match parseInt cs0 with
        | .error e => (.error e : Except ParseError (List Char × List Char))
        | .ok (int, cs1) =>
          match parseFrac cs1 with
          | .error e => .error e
          | .ok (frac, cs2) =>
            match parseExp cs2 with
            | .error e => .error e
            | .ok (exp, cs3) => .ok (sign ++ int ++ frac ++ exp, cs3)) ≠ .error .outOfFuel ∧
      ∀ ds rest,
        (match parseInt cs0 with
        | .error e => (.error e : Except ParseError (List Char × List Char))
        | .ok (int, cs1) =>
          match parseFrac cs1 with
          | .error e => .error e
          | .ok (frac, cs2) =>
            match parseExp cs2 with
            | .error e => .error e
            | .ok (exp, cs3) => .ok (sign ++ int ++ frac ++ exp, cs3)) = .ok (ds, rest) →
          rest.length ≤ cs.length := by
    intro sign cs0 hlen
    have h1 := parseInt_spec cs0
    cases hp1 : parseInt cs0 with
    | error e => rw [hp1] at h1; exact ⟨h1.1, by simp⟩
    | ok r1 =>
      obtain ⟨int, cs1⟩ := r1
      have l1 := h1.2 int cs1 hp1
      have h2 := parseFrac_spec cs1
      simp only
      cases hp2 : parseFrac cs1 with
      | error e => rw [hp2] at h2; exact ⟨h2.1, by simp⟩
      | ok r2 =>
        obtain ⟨frac, cs2⟩ := r2
        have l2 := h2.2 frac cs2 hp2
        have h3 := parseExp_spec cs2
        simp only
        cases hp3 : parseExp cs2 with
        | error e => rw [hp3] at h3; exact ⟨h3.1, by simp⟩
        | ok r3 =>
          obtain ⟨exp, cs3⟩ := r3
          have l3 := h3.2 exp cs3 hp3
          refine ⟨by simp, fun ds rest h => ?_⟩
          simp only [Except.ok.injEq, Prod.mk.injEq] at h
          rw [← h.2]; omega
  unfold parseNumber
  cases cs with
  | nil => exact key [] [] (le_refl _)
  | cons c rest =>
    simp only
    split_ifs
    · exact key ['-'] rest (by simp)
    · exact key [] (c :: rest) (le_refl _)

theorem expectWord_spec (word cs : List Char) :
    expectWord word cs ≠ .error .outOfFuel ∧
    ∀ rest, expectWord word cs = .ok rest → rest.length ≤ cs.length := by
  unfold expectWord
  split_ifs
  · refine ⟨by simp, fun rest h => ?_⟩
    simp only [Except.ok.injEq] at h
    rw [← h]; simp
  · simp
theorem withinBound_error {α : Type} (n : Nat) (e : ParseError) (h : e ≠ .outOfFuel) :
    WithinBound n (.error e : Except ParseError (α × List Char)) :=
  ⟨fun he => h (by simpa using he), by simp⟩

theorem withinBound_ok {α : Type} (n : Nat) (a : α) (rest : List Char)
    (h : rest.length ≤ n) : WithinBound n (.ok (a, rest) : Except ParseError (α × List Char)) :=
  ⟨by simp, fun b r hr => by
    simp only [Except.ok.injEq, Prod.mk.injEq] at hr
    rw [← hr.2]; exact h⟩

theorem parseElements_succ (f : Nat)
    (ihV : ∀ cs, 2 * cs.length + 1 ≤ f → WithinBound cs.length (parseValue f cs))
    (ihE : ∀ cs acc, 2 * cs.length + 2 ≤ f → WithinBound cs.length (parseElements f cs acc))
    (cs : List Char) (acc : List Json) (hf : 2 * cs.length + 2 ≤ f + 1) :
    WithinBound cs.length (parseElements (f + 1) cs acc) := by
  rw [parseElements]
  have hs := skipWs_length cs
  have hV := ihV (skipWs cs) (by omega)
  cases hp : parseValue f (skipWs cs) with
  | error e => exact withinBound_error _ e (fun he => hV.1 (by rw [hp, he]))
  | ok p =>
    obtain ⟨v, rest⟩ := p
    have hl := hV.2 v rest hp
    have hs2 := skipWs_length rest
    simp only
    cases hk : skipWs rest with
    | nil => exact withinBound_error _ _ (by simp)
    | cons d rest1 =>
      rw [hk] at hs2
      simp only [List.length_cons] at hs2
      simp only
      split_ifs
      · have hE := ihE rest1 (v :: acc) (by omega)
        exact ⟨hE.1, fun a r hr => le_trans (hE.2 a r hr) (by omega)⟩
      · exact withinBound_ok _ _ _ (by omega)
      · exact withinBound_error _ _ (by simp)

theorem parseMembers_succ (f : Nat)
    (ihV : ∀ cs, 2 * cs.length + 1 ≤ f → WithinBound cs.length (parseValue f cs))
    (ihM : ∀ cs acc, 2 * cs.length + 2 ≤ f → WithinBound cs.length (parseMembers f cs acc))
    (cs : List Char) (acc : List (List Nat × Json)) (hf : 2 * cs.length + 2 ≤ f + 1) :
    WithinBound cs.length (parseMembers (f + 1) cs acc) := by
  rw [parseMembers]
  have hs := skipWs_length cs
  cases hk : skipWs cs with
  | nil => exact withinBound_error _ _ (by simp)
  | cons q rest =>
    rw [hk] at hs
    simp only [List.length_cons] at hs
    simp only
    split_ifs
    · have hS := parseStringBody_spec rest (.plain false) []
      cases hp : parseStringBody rest (.plain false) [] with
      | error e => exact withinBound_error _ e (fun he => hS.1 (by rw [hp, he]))
      | ok p =>
        obtain ⟨key, rest1⟩ := p
        have hl1 := hS.2 key rest1 hp
        have hs1 := skipWs_length rest1
        simp only
        cases hk1 : skipWs rest1 with
        | nil => exact withinBound_error _ _ (by simp)
        | cons colon rest2 =>
          rw [hk1] at hs1
          simp only [List.length_cons] at hs1
          simp only
          split_ifs
          · have hs2 := skipWs_length rest2
            have hV := ihV (skipWs rest2) (by omega)
            cases hp2 : parseValue f (skipWs rest2) with
            | error e => exact withinBound_error _ e (fun he => hV.1 (by rw [hp2, he]))
            | ok p2 =>
              obtain ⟨v, rest3⟩ := p2
              have hl3 := hV.2 v rest3 hp2
              have hs3 := skipWs_length rest3
              simp only
              cases hk3 : skipWs rest3 with
              | nil => exact withinBound_error _ _ (by simp)
              | cons d rest4 =>
                rw [hk3] at hs3
                simp only [List.length_cons] at hs3
                simp only
                split_ifs
                · have hM := ihM rest4 ((key, v) :: acc) (by omega)
                  exact ⟨hM.1, fun a r hr => le_trans (hM.2 a r hr) (by omega)⟩
                · exact withinBound_ok _ _ _ (by omega)
                · exact withinBound_error _ _ (by simp)
          · exact withinBound_error _ _ (by simp)
    · exact withinBound_error _ _ (by simp)
theorem parseValue_succ (f : Nat)
    (ihE : ∀ cs acc, 2 * cs.length + 2 ≤ f → WithinBound cs.length (parseElements f cs acc))
    (ihM : ∀ cs acc, 2 * cs.length + 2 ≤ f → WithinBound cs.length (parseMembers f cs acc))
    (cs : List Char) (hf : 2 * cs.length + 1 ≤ f + 1) :
    WithinBound cs.length (parseValue (f + 1) cs) := by
  cases cs with
  | nil =>
    rw [parseValue]
    exact withinBound_error _ _ (by simp)
  | cons c rest =>
    rw [parseValue]
    simp only [List.length_cons] at hf ⊢
    have hs := skipWs_length rest
    split_ifs
    · cases hk : skipWs rest with
      | nil => exact withinBound_error _ _ (by simp)
      | cons d rest1 =>
        rw [hk] at hs
        simp only
        split_ifs
        · exact withinBound_ok _ _ _ (by simp only [List.length_cons] at hs; omega)
        · have hM := ihM (d :: rest1) [] (by omega)
          have hM' : WithinBound (rest.length + 1) (parseMembers f (d :: rest1) []) :=
            ⟨hM.1, fun a r hr => le_trans (hM.2 a r hr) (by omega)⟩
          cases hp : parseMembers f (d :: rest1) [] with
          | error e => exact withinBound_error _ e (fun he => hM'.1 (by rw [hp, he]))
          | ok p =>
            obtain ⟨a, r⟩ := p
            exact withinBound_ok _ _ _ (hM'.2 a r hp)
    · cases hk : skipWs rest with
      | nil => exact withinBound_error _ _ (by simp)
      | cons d rest1 =>
        rw [hk] at hs
        simp only
        split_ifs
        · exact withinBound_ok _ _ _ (by simp only [List.length_cons] at hs; omega)
        · have hE := ihE (d :: rest1) [] (by omega)
          have hE' : WithinBound (rest.length + 1) (parseElements f (d :: rest1) []) :=
            ⟨hE.1, fun a r hr => le_trans (hE.2 a r hr) (by omega)⟩
          cases hp : parseElements f (d :: rest1) [] with
          | error e => exact withinBound_error _ e (fun he => hE'.1 (by rw [hp, he]))
          | ok p =>
            obtain ⟨a, r⟩ := p
            exact withinBound_ok _ _ _ (hE'.2 a r hp)
    · have hS := parseStringBody_spec rest (.plain false) []
      have hS' : WithinBound (rest.length + 1) (parseStringBody rest (.plain false) []) :=
        ⟨hS.1, fun a r hr => le_of_lt (lt_trans (hS.2 a r hr) (by omega))⟩
      cases hp : parseStringBody rest (.plain false) [] with
      | error e => exact withinBound_error _ e (fun he => hS'.1 (by rw [hp, he]))
      | ok p =>
        obtain ⟨a, r⟩ := p
        exact withinBound_ok _ _ _ (hS'.2 a r hp)
    · have hW := expectWord_spec "true".data (c :: rest)
      cases hp : expectWord "true".data (c :: rest) with
      | error e => exact withinBound_error _ e (fun he => hW.1 (by rw [hp, he]))
      | ok r => exact withinBound_ok _ _ _ (by simpa using hW.2 r hp)
    · have hW := expectWord_spec "false".data (c :: rest)
      cases hp : expectWord "false".data (c :: rest) with
      | error e => exact withinBound_error _ e (fun he => hW.1 (by rw [hp, he]))
      | ok r => exact withinBound_ok _ _ _ (by simpa using hW.2 r hp)
    · have hW := expectWord_spec "null".data (c :: rest)
      cases hp : expectWord "null".data (c :: rest) with
      | error e => exact withinBound_error _ e (fun he => hW.1 (by rw [hp, he]))
      | ok r => exact withinBound_ok _ _ _ (by simpa using hW.2 r hp)
    · have hN := parseNumber_spec (c :: rest)
      have hN' : WithinBound (rest.length + 1) (parseNumber (c :: rest)) :=
        ⟨hN.1, fun a r hr => by simpa using hN.2 a r hr⟩
      cases hp : parseNumber (c :: rest) with
      | error e => exact withinBound_error _ e (fun he => hN'.1 (by rw [hp, he]))
      | ok p =>
        obtain ⟨a, r⟩ := p
        exact withinBound_ok _ _ _ (hN'.2 a r hp)

theorem parse_withinBound (fuel : Nat) :
    (∀ cs, 2 * cs.length + 1 ≤ fuel → WithinBound cs.length (parseValue fuel cs)) ∧
    (∀ cs acc, 2 * cs.length + 2 ≤ fuel →
      WithinBound cs.length (parseElements fuel cs acc)) ∧
    (∀ cs acc, 2 * cs.length + 2 ≤ fuel →
      WithinBound cs.length (parseMembers fuel cs acc)) := by
  induction fuel with
  | zero =>
    refine ⟨fun cs h => ?_, fun cs acc h => ?_, fun cs acc h => ?_⟩ <;> omega
  | succ f ih =>
    obtain ⟨ihV, ihE, ihM⟩ := ih
    exact ⟨parseValue_succ f ihE ihM, parseElements_succ f ihV ihE,
      parseMembers_succ f ihV ihM⟩

/-- The recursion bound of `jsonParse` is never the reason it stops: every
text is either parsed or rejected. -/
theorem jsonParse_ne_outOfFuel (text : String) : jsonParse text ≠ .error .outOfFuel := by
  unfold jsonParse
  have hs := skipWs_length text.data
  have hV := (parse_withinBound (2 * text.data.length + 2)).1 (skipWs text.data) (by omega)
  cases hp : parseValue (2 * text.data.length + 2) (skipWs text.data) with
  | error e =>
    simp only
    intro he
    simp only [Except.error.injEq] at he
    exact hV.1 (by rw [hp, he])
  | ok p =>
    obtain ⟨v, rest⟩ := p
    simp only
    split_ifs <;> simp

/-! ## Checks of the embedded built-ins on known values -/

theorem toISOString_examples :
    toISOString 0 = "1970-01-01T00:00:00.000Z" ∧
    toISOString 951782400000 = "2000-02-29T00:00:00.000Z" ∧
    toISOString 1700000000000 = "2023-11-14T22:13:20.000Z" ∧
    toISOString 1709251199999 = "2024-02-29T23:59:59.999Z" ∧
    toISOString 4102444800000 = "2100-01-01T00:00:00.000Z" ∧
    toISOString 253402300800000 = "+010000-01-01T00:00:00.000Z" ∧
    toISOString 8640000000000000 = "+275760-09-13T00:00:00.000Z" := by
  decide

theorem jsTrim_examples :
    jsTrim "  a b \t\n" = "a b" ∧ jsTrim " \u00a0\u2003\ufeff " = "" ∧ jsTrim "" = "" ∧
    jsTrim "x" = "x" := by
  decide

theorem jsIncludes_examples :
    jsIncludes "foobar" "bar" = true ∧ jsIncludes "foobar" "" = true ∧
    jsIncludes "foo" "bar" = false ∧ jsIncludes "" "" = true ∧
    jsIncludes "ab" "abc" = false := by
  decide

set_option maxRecDepth 100000 in
theorem freshLoad_example :
    freshLoad [("todos",
      " [ \x7b \"title\" : \"a\\u0041\\n\\\"\\ud83d\\ude00\" , \"id\" : 12 , \"content\":\"\", \"category\":\"work\", \"completed\":true, \"createdAt\":\"c\", \"updatedAt\":\"u\", \"extra\":[1.5e-3,null,\x7b\x7d]\x7d ] ")] =
      ({ initialState [("todos",
      " [ \x7b \"title\" : \"a\\u0041\\n\\\"\\ud83d\\ude00\" , \"id\" : 12 , \"content\":\"\", \"category\":\"work\", \"completed\":true, \"createdAt\":\"c\", \"updatedAt\":\"u\", \"extra\":[1.5e-3,null,\x7b\x7d]\x7d ] ")] with
         todos := [{ id := 12, title := "aA\n\"😀", content := "", category := "work",
                     completed := true, createdAt := "c", updatedAt := "u" }] },
       Completion.normal) := by
  decide

theorem jsonParse_rejects :
    jsonParse "[1,]" = .error .syntaxError ∧
    jsonParse "[01]" = .error .syntaxError ∧
    jsonParse "[\"a\nb\"]" = .error .syntaxError ∧
    jsonParse "[] x" = .error .syntaxError ∧
    jsonParse "\x7b\"id\":1" = .error .syntaxError ∧
    jsonParse "[\"\\ud83d\"" = .error .syntaxError ∧
    jsonParse "[\"\\u12g4\"]" = .error .syntaxError ∧
    jsonParse "[\"\\x\"]" = .error .syntaxError ∧
    jsonParse "-" = .error .syntaxError ∧
    jsonParse "1." = .error .syntaxError ∧
    jsonParse "nul" = .error .syntaxError ∧
    jsonParse "" = .error .syntaxError :=
  ⟨rfl, rfl, rfl, rfl, rfl, rfl, rfl, rfl, rfl, rfl, rfl, rfl⟩

theorem jsonParse_accepts :
    jsonParse " [ ] " = .ok (Json.arr []) ∧
    jsonParse "[1]" = .ok (Json.arr [Json.num ['1']]) ∧
    jsonParse "null" = .ok Json.null ∧
    jsonParse "-0.5e+10" = .ok (Json.num "-0.5e+10".data) ∧
    jsonParse "\x7b \x7d" = .ok (Json.obj []) ∧
    jsonParse "\"\\ud83d\"" = .ok (Json.str [0xD83D]) ∧
    jsonParse "\"\\ud83d\\ude00\"" = .ok (Json.str [0x1F600]) ∧
    jsonParse "\"\\ude00\\ud83d\\n\"" = .ok (Json.str [0xDE00, 0xD83D, 10]) ∧
    jsonParse "\"\\ud83d\\ud83d\\ude00\"" = .ok (Json.str [0xD83D, 0x1F600]) :=
  ⟨rfl, rfl, rfl, rfl, rfl, rfl, rfl, rfl, rfl⟩

/-- The filter example of the specification: of a "work" note titled "foo"
and a "personal" note titled "foobar", `query("work","foo")` returns the
first and `query("all","bar")` the second. -/
theorem query_examples :
    query asciiLower "work" "foo"
        { initialState [] with todos :=
          [{ id := 2, title := "foo", content := "", category := "work", completed := false,
             createdAt := "", updatedAt := "" },
           { id := 1, title := "foobar", content := "", category := "personal",
             completed := false, createdAt := "", updatedAt := "" }] } =
      [{ id := 2, title := "foo", content := "", category := "work", completed := false,
         createdAt := "", updatedAt := "" }] ∧
    query asciiLower "all" " BAR "
        { initialState [] with todos :=
          [{ id := 2, title := "foo", content := "", category := "work", completed := false,
             createdAt := "", updatedAt := "" },
           { id := 1, title := "foobar", content := "", category := "personal",
             completed := false, createdAt := "", updatedAt := "" }] } =
      [{ id := 1, title := "foobar", content := "", category := "personal",
         completed := false, createdAt := "", updatedAt := "" }] := by
  decide

/-! ## The claims of the specification -/

/-- C1: `filterTodos` returns exactly the notes of the collection, in the
collection's order, that satisfy the query predicate of the specification
(category filter "all" or equal category, and empty search term or a
case-insensitive occurrence in title or content). -/
theorem filterTodos_eq_filter (toLowerCase : String → String) (st : State) :
    filterTodos toLowerCase st =
      st.todos.filter
        (fun n => decide (matchesQuery toLowerCase st.currentFilter st.searchInput n)) := by
  unfold filterTodos
  by_cases hf : st.currentFilter = "all"
  · by_cases hs : truthy (jsTrim (toLowerCase st.searchInput)) = true
    · have hne := (truthy_eq_true_iff _).mp hs
      simp only [hf, ne_eq, not_true_eq_false, ↓reduceIte, hs]
      apply List.filter_congr
      intro n _
      simp [matchesQuery, jsIncludes_eq_decide, hne]
    · have he : (jsTrim (toLowerCase st.searchInput)).data = [] :=
        (truthy_eq_false_iff _).mp (by simpa using hs)
      simp only [hf, ne_eq, not_true_eq_false, ↓reduceIte, hs]
      symm
      apply List.filter_eq_self.mpr
      intro n _
      simp [matchesQuery, he]
  · by_cases hs : truthy (jsTrim (toLowerCase st.searchInput)) = true
    · have hne := (truthy_eq_true_iff _).mp hs
      simp only [ne_eq, hf, not_false_eq_true, ↓reduceIte, hs, List.filter_filter]
      apply List.filter_congr
      intro n _
      have hb : (n.category == st.currentFilter) = decide (n.category = st.currentFilter) := by
        rw [Bool.eq_iff_iff]; simp
      simp only [matchesQuery, jsIncludes_eq_decide, hne, hf, hb, false_or, Bool.decide_and,
        Bool.decide_or]
      exact Bool.and_comm _ _
    · have he : (jsTrim (toLowerCase st.searchInput)).data = [] :=
        (truthy_eq_false_iff _).mp (by simpa using hs)
      simp only [ne_eq, hf, not_false_eq_true, ↓reduceIte, hs]
      apply List.filter_congr
      intro n _
      have hb : (n.category == st.currentFilter) = decide (n.category = st.currentFilter) := by
        rw [Bool.eq_iff_iff]; simp
      simp [matchesQuery, he, hf, hb]

/-- C2: with a title or content that is non-empty after trimming,
`createTodo` returns normally and turns the collection into the new note
followed by the old collection; the new note has the trimmed title (or
"Untitled"), the trimmed content, the chosen category and `completed = false`.
Hence after `create(A)` then `create(B)`, `query("all","")` lists B, then A,
then the notes that were there before (none, from the empty collection);
`toLowerCase` maps the empty string to itself, as JavaScript's does. -/
theorem createTodo_prepends (toLowerCase : String → String) (st : State)
    (now created updated : Nat) (a b : CreateCall)
    (hlower : toLowerCase "" = "")
    (h : (jsTrim st.todoTitle).data ≠ [] ∨ (jsTrim st.todoContent).data ≠ [])
    (ha : a.valid) (hb : b.valid) :
    (createTodo now created updated st).2 = Completion.normal ∧
    (createTodo now created updated st).1.todos =
      { id := now
        title := if (jsTrim st.todoTitle).data = [] then "Untitled" else jsTrim st.todoTitle
        content := jsTrim st.todoContent
        category := st.todoCategory
        completed := false
        createdAt := toISOString created
        updatedAt := toISOString updated } :: st.todos ∧
    query toLowerCase "all" "" (create b (create a st).1).1 = b.note :: a.note :: st.todos ∧
    (st.todos = [] →
      query toLowerCase "all" "" (create b (create a st).1).1 = [b.note, a.note]) := by
  have hq : query toLowerCase "all" "" (create b (create a st).1).1 =
      b.note :: a.note :: st.todos := by
    rw [query_all_empty toLowerCase hlower, create_todos, if_pos hb, create_todos, if_pos ha]
  refine ⟨?_, ?_, hq, ?_⟩
  · rw [createTodo_valid _ _ _ _ h]
  · rw [createTodo_valid _ _ _ _ h]; rfl
  · intro he; rw [hq, he]

/-- Witness of C2: two notes entered on the empty initial state. -/
theorem createTodo_prepends_witness :
    (createTodo 1 1 1 (fillForm " Shop " "" "personal" (initialState []))).2 =
        Completion.normal ∧
    (createTodo 1 1 1 (fillForm " Shop " "" "personal" (initialState []))).1.todos =
      [{ id := 1, title := "Shop", content := "", category := "personal", completed := false,
         createdAt := toISOString 1, updatedAt := toISOString 1 }] ∧
    query asciiLower "all" ""
        (create ⟨"", "milk", "work", 2, 2, 2⟩
          (create ⟨" Shop ", "", "personal", 1, 1, 1⟩
            (fillForm " Shop " "" "personal" (initialState []))).1).1 =
      [{ id := 2, title := "Untitled", content := "milk", category := "work",
         completed := false, createdAt := toISOString 2, updatedAt := toISOString 2 },
       { id := 1, title := "Shop", content := "", category := "personal", completed := false,
         createdAt := toISOString 1, updatedAt := toISOString 1 }] := by
  have h := createTodo_prepends asciiLower (fillForm " Shop " "" "personal" (initialState []))
    1 1 1 ⟨" Shop ", "", "personal", 1, 1, 1⟩ ⟨"", "milk", "work", 2, 2, 2⟩
    (by decide) (by decide) (by decide) (by decide)
  exact ⟨h.1, h.2.1, h.2.2.2 rfl⟩

/-- C3: when title and content are both empty after trimming, `createTodo`
signals the failure (an alert) and changes nothing: the collection, the
form and the store are as before. -/
theorem createTodo_rejects_blank (now created updated : Nat) (st : State)
    (ht : (jsTrim st.todoTitle).data = []) (hc : (jsTrim st.todoContent).data = []) :
    (createTodo now created updated st).2 =
      Completion.alerted "Please enter a title or content for your note." ∧
    signalsError (createTodo now created updated st).2 ∧
    (createTodo now created updated st).1 = st := by
  rw [createTodo_invalid _ _ _ _ ht hc]
  exact ⟨rfl, by simp [signalsError], rfl⟩

/-- Witness of C3: blanks in both controls, over a non-empty store. -/
theorem createTodo_rejects_blank_witness :
    (createTodo 1 1 1 (fillForm "  " "\n\t" "work" (initialState [("todos", "[]")]))).2 =
      Completion.alerted "Please enter a title or content for your note." ∧
    signalsError
      (createTodo 1 1 1 (fillForm "  " "\n\t" "work" (initialState [("todos", "[]")]))).2 ∧
    (createTodo 1 1 1 (fillForm "  " "\n\t" "work" (initialState [("todos", "[]")]))).1 =
      fillForm "  " "\n\t" "work" (initialState [("todos", "[]")]) :=
  createTodo_rejects_blank 1 1 1 (fillForm "  " "\n\t" "work" (initialState [("todos", "[]")]))
    (by decide) (by decide)

/-- Counterexample to C4: two successful `createTodo` calls whose
`Date.now()` readings fall in the same millisecond give two notes with the
same id, starting from the empty collection. -/
theorem create_same_millisecond_duplicates_id :
    CreateCall.valid ⟨"a", "", "personal", 1700000000000, 1700000000000, 1700000000000⟩ ∧
    CreateCall.valid ⟨"b", "", "personal", 1700000000000, 1700000000000, 1700000000000⟩ ∧
    (((initialState []).todos.map (·.id)).Nodup) ∧
    ¬ ((runCreates
        [⟨"a", "", "personal", 1700000000000, 1700000000000, 1700000000000⟩,
         ⟨"b", "", "personal", 1700000000000, 1700000000000, 1700000000000⟩]
        (initialState [])).todos.map (·.id)).Nodup := by
  decide

/-- C4, amended: a sequence of `createTodo` calls whose `Date.now()`
readings are pairwise distinct and are the id of no note of the starting
collection keeps the ids of the collection pairwise distinct. -/
theorem runCreates_ids_nodup (calls : List CreateCall) (st : State)
    (h0 : (st.todos.map (·.id)).Nodup)
    (hd : (calls.map (·.now)).Nodup)
    (hf : ∀ c ∈ calls, ∀ t ∈ st.todos, t.id ≠ c.now) :
    ((runCreates calls st).todos.map (·.id)).Nodup := by
  induction calls generalizing st with
  | nil => exact h0
  | cons c rest ih =>
    simp only [runCreates]
    simp only [List.map_cons, List.nodup_cons] at hd
    apply ih
    · rw [create_todos]
      split
      · simp only [List.map_cons, List.nodup_cons]
        refine ⟨?_, h0⟩
        intro hm
        obtain ⟨t, ht, hid⟩ := List.mem_map.mp hm
        exact hf c (List.mem_cons_self _ _) t ht hid
      · exact h0
    · exact hd.2
    · intro c' hc' t ht
      rw [create_todos] at ht
      split at ht
      · rcases List.mem_cons.mp ht with rfl | ht
        · intro he
          apply hd.1
          have : (CreateCall.note c).id = c.now := rfl
          rw [this] at he
          rw [he]
          exact List.mem_map.mpr ⟨c', hc', rfl⟩
        · exact hf c' (List.mem_cons_of_mem _ hc') t ht
      · exact hf c' (List.mem_cons_of_mem _ hc') t ht

/-- Witness of C4 (amended): two calls one millisecond apart. -/
theorem runCreates_ids_nodup_witness :
    ((runCreates
        [⟨"a", "", "personal", 1700000000000, 1700000000000, 1700000000000⟩,
         ⟨"b", "", "personal", 1700000000001, 1700000000001, 1700000000001⟩]
        (initialState [])).todos.map (·.id)).Nodup :=
  runCreates_ids_nodup
    [⟨"a", "", "personal", 1700000000000, 1700000000000, 1700000000000⟩,
     ⟨"b", "", "personal", 1700000000001, 1700000000001, 1700000000001⟩]
    (initialState []) (by decide) (by decide) (by decide)

/-- Counterexample to C5: on a collection holding one note with id 1, the
three operations called with the unknown id 7 return normally; no error is
signalled. -/
theorem unknown_id_is_silent :
    (create ⟨"a", "", "personal", 1, 1, 1⟩ (initialState [])).1.todos.map (·.id) = [1] ∧
    ¬ signalsError
        (toggleComplete 7 2 (create ⟨"a", "", "personal", 1, 1, 1⟩ (initialState [])).1).2 ∧
    ¬ signalsError
        (saveEdit 2 { (create ⟨"a", "", "personal", 1, 1, 1⟩ (initialState [])).1 with
                      editingTodoId := some 7 }).2 ∧
    ¬ signalsError
        (deleteTodo 7 true (create ⟨"a", "", "personal", 1, 1, 1⟩ (initialState [])).1).2 := by
  decide

/-- C5, amended: for an id that matches no note, `toggleComplete(id)` and
`saveEdit` (with `editingTodoId = id`) return normally without any signal
and leave the whole state, collection and store, unchanged; a confirmed
`deleteTodo(id)` returns normally without any signal, leaves the collection
unchanged and writes that unchanged collection to the store. -/
theorem unknown_id_no_change (id now : Nat) (st : State)
    (h : ∀ t ∈ st.todos, t.id ≠ id) :
    toggleComplete id now st = (st, Completion.normal) ∧
    saveEdit now { st with editingTodoId := some id } =
      ({ st with editingTodoId := some id }, Completion.normal) ∧
    deleteTodo id true st = (saveTodos st, Completion.normal) ∧
    (saveTodos st).todos = st.todos := by
  refine ⟨?_, ?_, ?_, rfl⟩
  · unfold toggleComplete
    rw [find_none_of_unknown id st.todos h]
  · unfold saveEdit
    simp only
    rw [find_none_of_unknown id st.todos h]
  · unfold deleteTodo
    simp only [↓reduceIte]
    rw [filter_unknown id st.todos h]

/-- Witness of C5 (amended): one note with id 1, the unknown id 7. -/
theorem unknown_id_no_change_witness :
    toggleComplete 7 2 (create ⟨"a", "", "personal", 1, 1, 1⟩ (initialState [])).1 =
      ((create ⟨"a", "", "personal", 1, 1, 1⟩ (initialState [])).1, Completion.normal) ∧
    saveEdit 2 { (create ⟨"a", "", "personal", 1, 1, 1⟩ (initialState [])).1 with
                 editingTodoId := some 7 } =
      ({ (create ⟨"a", "", "personal", 1, 1, 1⟩ (initialState [])).1 with
         editingTodoId := some 7 }, Completion.normal) ∧
    deleteTodo 7 true (create ⟨"a", "", "personal", 1, 1, 1⟩ (initialState [])).1 =
      (saveTodos (create ⟨"a", "", "personal", 1, 1, 1⟩ (initialState [])).1,
        Completion.normal) ∧
    (saveTodos (create ⟨"a", "", "personal", 1, 1, 1⟩ (initialState [])).1).todos =
      (create ⟨"a", "", "personal", 1, 1, 1⟩ (initialState [])).1.todos :=
  unknown_id_no_change 7 2 (create ⟨"a", "", "personal", 1, 1, 1⟩ (initialState [])).1
    (by decide)

/-- Counterexample to C6: a note created and then toggled twice within the
same millisecond keeps the same `updatedAt` through both calls, so the
timestamp does not strictly increase although the calls succeed; and a note
last changed in the final millisecond of the year 9999 and toggled one
millisecond later gets an `updatedAt` that, as a string, is smaller. -/
theorem toggle_same_millisecond_keeps_updatedAt :
    updatedAtOf 1700000000000
        (create ⟨"a", "", "personal", 1700000000000, 1700000000000, 1700000000000⟩
          (initialState [])).1 = some "2023-11-14T22:13:20.000Z" ∧
    updatedAtOf 1700000000000
        (toggleComplete 1700000000000 1700000000000
          (create ⟨"a", "", "personal", 1700000000000, 1700000000000, 1700000000000⟩
            (initialState [])).1).1 = some "2023-11-14T22:13:20.000Z" ∧
    updatedAtOf 1700000000000
        (toggleComplete 1700000000000 1700000000000
          (toggleComplete 1700000000000 1700000000000
            (create ⟨"a", "", "personal", 1700000000000, 1700000000000, 1700000000000⟩
              (initialState [])).1).1).1 = some "2023-11-14T22:13:20.000Z" ∧
    ¬ ("2023-11-14T22:13:20.000Z" < "2023-11-14T22:13:20.000Z") ∧
    updatedAtOf 7
        (create ⟨"a", "", "personal", 7, 253402300799999, 253402300799999⟩
          (initialState [])).1 = some "9999-12-31T23:59:59.999Z" ∧
    updatedAtOf 7
        (toggleComplete 7 253402300800000
          (create ⟨"a", "", "personal", 7, 253402300799999, 253402300799999⟩
            (initialState [])).1).1 = some "+010000-01-01T00:00:00.000Z" ∧
    ¬ ("9999-12-31T23:59:59.999Z" < "+010000-01-01T00:00:00.000Z") :=
  ⟨by decide, by decide, by decide, lt_irrefl _, by decide, by decide,
    fun h => lt_asymm h (string_lt_of_data _ _ (List.Lex.rel (by decide)))⟩

/-- C6, amended: for an id that `find` resolves to the note `n`, whose
`updatedAt` is the ISO timestamp of a clock reading `t0`, two calls of
`toggleComplete(id)` at clock readings `t1` and `t2` with `t0 < t1 < t2`,
before the year 10000, return `completed` to its original value, and the
note's `updatedAt` strictly increases with each of the two calls: it is the
ISO timestamp of `t1` after the first and of `t2` after the second; nothing
else in the collection changes. -/
theorem toggleComplete_twice (id t0 t1 t2 : Nat) (st : State) (n : Note)
    (h : st.todos.find? (fun t => t.id == id) = some n)
    (h0 : n.updatedAt = toISOString t0) (h01 : t0 < t1) (h12 : t1 < t2)
    (hmax : t2 < 253402300800000) :
    (toggleComplete id t1 st).1.todos.find? (fun t => t.id == id) =
      some { n with completed := !n.completed, updatedAt := toISOString t1 } ∧
    (toggleComplete id t2 (toggleComplete id t1 st).1).1.todos.find? (fun t => t.id == id) =
      some { n with completed := n.completed, updatedAt := toISOString t2 } ∧
    (toggleComplete id t2 (toggleComplete id t1 st).1).1.todos =
      updateFirst (fun t => t.id == id)
        (fun todo => { todo with updatedAt := toISOString t2 }) st.todos ∧
    updatedAtOf id st = some n.updatedAt ∧
    updatedAtOf id (toggleComplete id t1 st).1 = some (toISOString t1) ∧
    updatedAtOf id (toggleComplete id t2 (toggleComplete id t1 st).1).1 =
      some (toISOString t2) ∧
    n.updatedAt < toISOString t1 ∧ toISOString t1 < toISOString t2 := by
  have h1 := find_updateFirst id
    (fun todo => { todo with completed := !todo.completed, updatedAt := toISOString t1 })
    (fun _ => rfl) st.todos n h
  have e1 : toggleComplete id t1 st = _ := toggleComplete_found id t1 st n h
  have e2 : toggleComplete id t2 (toggleComplete id t1 st).1 = _ :=
    toggleComplete_found id t2 (toggleComplete id t1 st).1 _ (by rw [e1]; exact h1)
  have e3 : (toggleComplete id t2 (toggleComplete id t1 st).1).1.todos =
      updateFirst (fun t => t.id == id)
        (fun todo => { todo with updatedAt := toISOString t2 }) st.todos := by
    rw [e2, e1]
    simp only [saveTodos]
    rw [updateFirst_updateFirst id
      (fun todo => { todo with completed := !todo.completed, updatedAt := toISOString t1 })
      (fun todo => { todo with completed := !todo.completed, updatedAt := toISOString t2 })
      (fun _ => rfl)]
    simp only [Bool.not_not]
  have f1 : (toggleComplete id t1 st).1.todos.find? (fun t => t.id == id) =
      some { n with completed := !n.completed, updatedAt := toISOString t1 } := by
    rw [e1]; exact h1
  have f2 : (toggleComplete id t2 (toggleComplete id t1 st).1).1.todos.find?
      (fun t => t.id == id) =
      some { n with completed := n.completed, updatedAt := toISOString t2 } := by
    rw [e3]
    exact find_updateFirst id (fun todo => { todo with updatedAt := toISOString t2 })
      (fun _ => rfl) st.todos n h
  refine ⟨f1, f2, e3, ?_, ?_, ?_, ?_, ?_⟩
  · unfold updatedAtOf; rw [h]; rfl
  · unfold updatedAtOf; rw [f1]; rfl
  · unfold updatedAtOf; rw [f2]; rfl
  · rw [h0]; exact toISOString_lt t0 t1 h01 (by omega)
  · exact toISOString_lt t1 t2 h12 hmax

/-- Witness of C6 (amended): a note created at time 1, toggled at times 2 and 3. -/
theorem toggleComplete_twice_witness :
    (toggleComplete 1 2 (create ⟨"a", "", "personal", 1, 1, 1⟩ (initialState [])).1
      ).1.todos.find? (fun t => t.id == 1) =
      some { id := 1, title := "a", content := "", category := "personal",
             completed := true, createdAt := toISOString 1, updatedAt := toISOString 2 } ∧
    (toggleComplete 1 3
      (toggleComplete 1 2 (create ⟨"a", "", "personal", 1, 1, 1⟩ (initialState [])).1).1
      ).1.todos.find? (fun t => t.id == 1) =
      some { id := 1, title := "a", content := "", category := "personal",
             completed := false, createdAt := toISOString 1, updatedAt := toISOString 3 } ∧
    toISOString 1 < toISOString 2 ∧ toISOString 2 < toISOString 3 :=
  have h := toggleComplete_twice 1 1 2 3
    (create ⟨"a", "", "personal", 1, 1, 1⟩ (initialState [])).1
    { id := 1, title := "a", content := "", category := "personal",
      completed := false, createdAt := toISOString 1, updatedAt := toISOString 1 }
    (by decide) rfl (by decide) (by decide) (by decide)
  ⟨h.1, h.2.1, h.2.2.2.2.2.2.1, h.2.2.2.2.2.2.2⟩

/-- C7: after a confirmed `deleteTodo(id)`, `query("all","")` is the former
result with the notes of that id removed: it holds no note with that id, and
every note with another id is still there, unchanged and in the same order
(`toLowerCase` maps the empty string to itself, as JavaScript's does). -/
theorem deleteTodo_query (toLowerCase : String → String) (id : Nat) (st : State)
    (hlower : toLowerCase "" = "") :
    query toLowerCase "all" "" (deleteTodo id true st).1 =
      (query toLowerCase "all" "" st).filter (fun n => n.id != id) ∧
    (∀ n ∈ query toLowerCase "all" "" (deleteTodo id true st).1, n.id ≠ id) ∧
    (∀ n ∈ query toLowerCase "all" "" st, n.id ≠ id →
      n ∈ query toLowerCase "all" "" (deleteTodo id true st).1) ∧
    (query toLowerCase "all" "" (deleteTodo id true st).1).Sublist
      (query toLowerCase "all" "" st) := by
  have hq : query toLowerCase "all" "" (deleteTodo id true st).1 =
      (query toLowerCase "all" "" st).filter (fun n => n.id != id) := by
    rw [query_all_empty toLowerCase hlower, query_all_empty toLowerCase hlower]
    rfl
  refine ⟨hq, ?_, ?_, ?_⟩
  · intro n hn
    rw [hq] at hn
    simpa using (List.mem_filter.mp hn).2
  · intro n hn hne
    rw [hq]
    exact List.mem_filter.mpr ⟨hn, by simpa using hne⟩
  · rw [hq]
    exact List.filter_sublist _

/-- Witness of C7: two notes, the older one deleted. -/
theorem deleteTodo_query_witness :
    query asciiLower "all" ""
        (deleteTodo 1 true
          (runCreates [⟨"a", "", "personal", 1, 1, 1⟩, ⟨"b", "", "work", 2, 2, 2⟩]
            (initialState []))).1 =
      [{ id := 2, title := "b", content := "", category := "work", completed := false,
         createdAt := toISOString 2, updatedAt := toISOString 2 }] :=
  (deleteTodo_query asciiLower 1
    (runCreates [⟨"a", "", "personal", 1, 1, 1⟩, ⟨"b", "", "work", 2, 2, 2⟩]
      (initialState [])) (by decide)).1.trans (by decide)

/-- Counterexample to C8: at startup, with the text `not json` stored under
"todos", `loadTodos` fails: the `SyntaxError` of `JSON.parse` is not caught;
and with `[1]` or `null` stored there, JSON that is not an array of notes,
`loadTodos` returns normally but leaves in `todos` the parsed value, not the
empty collection. -/
theorem loadTodos_malformed_throws :
    (loadTodos [("todos", "not json")] (Json.arr [])).2 = Completion.threwSyntaxError ∧
    signalsError (loadTodos [("todos", "not json")] (Json.arr [])).2 ∧
    loadTodos [("todos", "[1]")] (Json.arr []) =
      (Json.arr [Json.num ['1']], Completion.normal) ∧
    (loadTodos [("todos", "[1]")] (Json.arr [])).1 ≠ Json.arr [] ∧
    loadTodos [("todos", "null")] (Json.arr []) = (Json.null, Completion.normal) ∧
    (loadTodos [("todos", "null")] (Json.arr [])).1 ≠ Json.arr [] := by
  refine ⟨by decide, by decide, rfl, ?_, rfl, ?_⟩
  · intro h
    have h1 : Json.arr [Json.num ['1']] = Json.arr [] := h
    simp at h1
  · intro h
    have h1 : Json.null = Json.arr [] := h
    simp at h1

/-- C8, amended: when the store has no entry under "todos", or holds the
empty string there, `loadTodos` returns normally and leaves in `todos` the
value it held, the empty collection at startup; when the entry is a
non-empty text that is not JSON, `loadTodos` fails with the uncaught
`SyntaxError` of `JSON.parse` and `todos` keeps the value it held; when the
entry is a non-empty text that is JSON, of whatever value (an array of notes
or not), `loadTodos` returns normally and leaves in `todos` the parsed
value.  No other case exists. -/
theorem loadTodos_by_stored_text (ls : Storage) (todos : Json) :
    (getItem ls "todos" = none ∨ getItem ls "todos" = some "" →
      loadTodos ls todos = (todos, Completion.normal)) ∧
    (∀ text, getItem ls "todos" = some text → text ≠ "" → ¬ IsJson text →
      loadTodos ls todos = (todos, Completion.threwSyntaxError)) ∧
    (∀ text v, getItem ls "todos" = some text → text ≠ "" → jsonParse text = .ok v →
      loadTodos ls todos = (v, Completion.normal)) ∧
    (loadTodos ls todos).2 ≠ Completion.unmodelled := by
  have htr : ∀ text : String, text ≠ "" → truthy text = true := by
    intro text ht
    rw [truthy_eq_true_iff]
    intro hd
    apply ht
    cases text
    simp_all
  refine ⟨?_, ?_, ?_, ?_⟩
  · rintro (h | h)
    · unfold loadTodos; rw [h]
    · unfold loadTodos; rw [h]; rfl
  · intro text h ht hj
    unfold loadTodos
    rw [h]
    simp only [htr text ht, ↓reduceIte]
    cases hp : jsonParse text with
    | ok v => exact absurd ⟨v, hp⟩ hj
    | error e =>
      cases e with
      | syntaxError => rfl
      | outOfFuel => exact absurd hp (jsonParse_ne_outOfFuel text)
  · intro text v h ht hp
    unfold loadTodos
    rw [h]
    simp only [htr text ht, ↓reduceIte, hp]
  · unfold loadTodos
    cases hg : getItem ls "todos" with
    | none => simp
    | some text =>
      simp only
      split_ifs
      · cases hp : jsonParse text with
        | ok v => simp
        | error e =>
          cases e with
          | syntaxError => simp
          | outOfFuel => exact absurd hp (jsonParse_ne_outOfFuel text)
      · simp

/-- Witness of C8 (amended): at startup, an empty store, a store with a
cut-off entry, and a store whose entry is JSON but no array of notes. -/
theorem loadTodos_by_stored_text_witness :
    loadTodos [] (Json.arr []) = (Json.arr [], Completion.normal) ∧
    loadTodos [("theme", "dark"), ("todos", "[1,")] (Json.arr []) =
      (Json.arr [], Completion.threwSyntaxError) ∧
    loadTodos [("theme", "dark"), ("todos", "42")] (Json.arr []) =
      (Json.num ['4', '2'], Completion.normal) :=
  ⟨(loadTodos_by_stored_text [] (Json.arr [])).1 (Or.inl (by decide)),
   (loadTodos_by_stored_text [("theme", "dark"), ("todos", "[1,")] (Json.arr [])).2.1
     "[1," (by decide) (by decide)
     (by
       rintro ⟨v, h⟩
       have e : jsonParse "[1," = .error .syntaxError := rfl
       rw [e] at h
       cases h),
   (loadTodos_by_stored_text [("theme", "dark"), ("todos", "42")] (Json.arr [])).2.2.1
     "42" (Json.num ['4', '2']) (by decide) (by decide) rfl⟩

/-- C9: `saveTodos` followed by a fresh `loadTodos` (startup from the empty
initial collection over the same store) completes normally with an equal
collection; and after each successful mutating operation (`createTodo` with
valid input, `toggleComplete` and `saveEdit` on an id in the collection, a
confirmed `deleteTodo`) a fresh `loadTodos` yields the collection then in
memory. -/
theorem save_load_roundtrip (st : State) :
    (freshLoad (saveTodos st).localStorage).2 = Completion.normal ∧
    (freshLoad (saveTodos st).localStorage).1.todos = st.todos ∧
    Persisted (saveTodos st) ∧
    (∀ now created updated,
      (jsTrim st.todoTitle).data ≠ [] ∨ (jsTrim st.todoContent).data ≠ [] →
      Persisted (createTodo now created updated st).1) ∧
    (∀ id now n, st.todos.find? (fun t => t.id == id) = some n →
      Persisted (toggleComplete id now st).1) ∧
    (∀ id now n, st.editingTodoId = some id →
      st.todos.find? (fun t => t.id == id) = some n →
      Persisted (saveEdit now st).1) ∧
    (∀ id, Persisted (deleteTodo id true st).1) := by
  have hs := persisted_saveTodos st
  refine ⟨?_, ?_, hs, ?_, ?_, ?_, ?_⟩
  · unfold Persisted at hs
    rw [hs]
  · unfold Persisted at hs
    rw [hs]
    rfl
  · intro now created updated h
    rw [createTodo_valid _ _ _ _ h]
    exact persisted_of_saved _ (getItem_setItem _ _ _)
  · intro id now n h
    rw [toggleComplete_found id now st n h]
    exact persisted_of_saved _ (getItem_setItem _ _ _)
  · intro id now n he h
    unfold saveEdit
    rw [he]
    simp only
    rw [h]
    exact persisted_of_saved _ (getItem_setItem _ _ _)
  · intro id
    unfold deleteTodo
    simp only [↓reduceIte]
    exact persisted_of_saved _ (getItem_setItem _ _ _)

/-- Witness of C9: a state holding one note, open in the edit dialog, with
a second note typed into the form. -/
theorem save_load_roundtrip_witness :
    Persisted (createTodo 2 2 2
      (fillForm "b" "" "work"
        (openEditModal 1 (create ⟨"a", "", "personal", 1, 1, 1⟩ (initialState [])).1))).1 ∧
    Persisted (toggleComplete 1 3
      (fillForm "b" "" "work"
        (openEditModal 1 (create ⟨"a", "", "personal", 1, 1, 1⟩ (initialState [])).1))).1 ∧
    Persisted (saveEdit 3
      (fillForm "b" "" "work"
        (openEditModal 1 (create ⟨"a", "", "personal", 1, 1, 1⟩ (initialState [])).1))).1 :=
  have h := save_load_roundtrip
    (fillForm "b" "" "work"
      (openEditModal 1 (create ⟨"a", "", "personal", 1, 1, 1⟩ (initialState [])).1))
  ⟨h.2.2.2.1 2 2 2 (by decide),
   h.2.2.2.2.1 1 3
     { id := 1, title := "a", content := "", category := "personal", completed := false,
       createdAt := toISOString 1, updatedAt := toISOString 1 } (by decide),
   h.2.2.2.2.2.1 1 3
     { id := 1, title := "a", content := "", category := "personal", completed := false,
       createdAt := toISOString 1, updatedAt := toISOString 1 } (by decide) (by decide)⟩

/-- C10: `escapeHtml(text)` is `text` with each `&`, `<`, `>`, `"`, `'`
replaced by `&amp;`, `&lt;`, `&gt;`, `&quot;`, `&#039;` and every other
character kept; so its result holds none of `<`, `>`, `"`, `'`, and every
`&` in it starts one of the five entities. -/
theorem escapeHtml_spec (text : String) :
    (escapeHtml text).data = text.data.flatMap entityOf ∧
    (∀ c ∈ (escapeHtml text).data, c ≠ '<' ∧ c ≠ '>' ∧ c ≠ dquote ∧ c ≠ squote) ∧
    (∀ l r : List Char, (escapeHtml text).data = l ++ '&' :: r →
      ∃ e ∈ entities, e <+: '&' :: r) := by
  have h1 : (escapeHtml text).data = text.data.flatMap entityOf := by
    unfold escapeHtml
    simp only
    congr 1
    funext c
    exact escapeChar_eq_entityOf c
  refine ⟨h1, ?_, ?_⟩
  · intro c hc
    rw [h1, List.mem_flatMap] at hc
    obtain ⟨d, -, hd⟩ := hc
    rcases entityOf_cases d with he | ⟨he, -, h2, h3, h4, h5⟩
    · exact (entities_safe _ he).2.2 c hd
    · rw [he, List.mem_singleton] at hd
      subst hd
      exact ⟨h2, h3, h4, h5⟩
  · intro l r h
    rw [h1] at h
    exact flatMap_entityOf_amp _ l r h

end NoteApp
